import Mathlib

/-!
Verification development for the Monkey interpreter (repository `xpcoffee/waiig`).

The program under study is a tree-walking interpreter: a Pratt parser
(src/unnamed/part_000, package parser), an AST with stringification
(src/ast/ast.go), and an evaluator over a lexically scoped environment
(src/unnamed/part_002 final revision, package evaluator, plus
src/evaluator/builtins.go).

The embedding below is a direct shallow translation of that Go code:

* Go `int64` arithmetic is `Int` arithmetic followed by `wrap64`
  (two's-complement wrap-around at 64 bits).
* Go interface values that may be `nil` are `Option` values; the evaluator
  result type `Res` distinguishes a real object, the `nil` interface
  (`Res.goNil`), a host-level runtime abort such as a slice index out of
  range or a nil dereference (`Res.hostAbort`), and exhaustion of the
  recursion fuel that makes the Lean functions total (`Res.outOfFuel`).
  Fuel is an artifact of the embedding: every theorem either quantifies
  over the fuel or supplies enough of it for the program at hand.
* The `object` package (value structs, `Environment`, `HashKey`) is not
  under src/; its behaviour is modelled from the spec where noted.
* Go maps used only through insert/lookup are modelled as association
  lists with in-place update.
-/

namespace Monkey

/-! ## AST (src/ast/ast.go)

`Expr.nilE` stands for a nil `ast.Expression` pointer (the parser stores
nil children on some error paths, and Go's `Eval` returns nil for a nil
node).  Blocks are statement lists; `IfExpression.Alternative` is a
nullable pointer, hence `Option`.  `HashLiteral.Pairs` is a Go map keyed
by expression pointers; it is modelled as a list of pairs, iterated in
list order (Go map iteration order is unspecified; no claim below depends
on a particular order, and where order would matter this is called out). -/

mutual
inductive Expr where
  | nilE : Expr
  | ident (value : String) : Expr
  | intLit (lit : String) (value : Int) : Expr
  | boolLit (lit : String) (value : Bool) : Expr
  | strLit (value : String) : Expr
  | prefixE (operator : String) (right : Expr) : Expr
  | infixE (left : Expr) (operator : String) (right : Expr) : Expr
  | ifE (condition : Expr) (consequence : List Stmt) (alternative : Option (List Stmt)) : Expr
  | fnE (parameters : List String) (body : List Stmt) : Expr
  | callE (function : Expr) (parameters : List Expr) : Expr
  | arrayE (elements : List Expr) : Expr
  | hashE (pairs : List (Expr × Expr)) : Expr
  | indexE (target : Expr) (index : Expr) : Expr
  deriving Repr

inductive Stmt where
  | letS (name : String) (value : Expr) : Stmt
  | returnS (value : Expr) : Stmt
  | exprS (expression : Expr) : Stmt
  deriving Repr
end

/-! ## Run-time objects

Modelled from the spec: the `object` package is not under src/.  The spec
(sections 3.3 and 3.4) gives the value variants, the type-name strings
observable in error messages (confirmed by the exact strings in
src/evaluator/evaluator_test.go), the singleton discipline for TRUE,
FALSE and NULL, and the environment as a name-to-value table with a
parent link.  Environments are mutable and shared by reference, so they
live in a store (`State`); an environment reference is an index into the
store.  A `Function` object holds its parameter names, its body and the
reference of its captured environment. -/

inductive HashKey where
  | intK (value : Int) : HashKey
  | boolK (value : Bool) : HashKey
  | strK (value : String) : HashKey
  deriving Repr, DecidableEq

mutual
inductive Obj where
  | integer (value : Int) : Obj
  | boolean (value : Bool) : Obj
  | null : Obj
  | str (value : String) : Obj
  | array (elements : List (Option Obj)) : Obj
  | hash (pairs : List (HashKey × Obj × Option Obj)) : Obj
  | function (parameters : List String) (body : List Stmt) (env : Nat) : Obj
  | builtin (name : String) : Obj
  | returnValue (value : Option Obj) : Obj
  | error (message : String) : Obj
  deriving Repr
end

/-- Modelled from the spec: the Type() strings of the object package,
as fixed by the exact error strings matched in the test suite
(for example "type mismatch: INTEGER + BOOLEAN",
"Cannot use as key HASH", "Cannot index type FUNCTION"). -/
def objType : Obj → String
  | .integer _ => "INTEGER"
  | .boolean _ => "BOOLEAN"
  | .null => "NULL"
  | .str _ => "STRING"
  | .array _ => "ARRAY"
  | .hash _ => "HASH"
  | .function _ _ _ => "FUNCTION"
  | .builtin _ => "BUILTIN"
  | .returnValue _ => "RETURN_VALUE"
  | .error _ => "ERROR"

/-- The string Go's fmt produces for the verb that prints a value's host
type, applied to an object interface value (used by applyFunction's
"not a function" message, which formats the callee that way). -/
def goTypeRepr : Option Obj → String
  | none => "<nil>"
  | some (.integer _) => "*object.Integer"
  | some (.boolean _) => "*object.Boolean"
  | some .null => "*object.Null"
  | some (.str _) => "*object.String"
  | some (.array _) => "*object.Array"
  | some (.hash _) => "*object.Hash"
  | some (.function _ _ _) => "*object.Function"
  | some (.builtin _) => "*object.Builtin"
  | some (.returnValue _) => "*object.ReturnValue"
  | some (.error _) => "*object.Error"

/-- Result of evaluating a node: a real object, the nil interface value,
a host-level runtime abort (index out of range, nil dereference,
division by zero), or fuel exhaustion (embedding artifact). -/
inductive Res where
  | ok (o : Obj) : Res
  | goNil : Res
  | hostAbort : Res
  | outOfFuel : Res
  deriving Repr

def Res.toOpt : Res → Option Obj
  | .ok o => some o
  | _ => none

def Res.ofOpt : Option Obj → Res
  | some o => .ok o
  | none => .goNil

/-- True when the result is one of the two abnormal embedding outcomes
that cut evaluation short in a way Go code cannot observe (a panic
unwinds the host stack; fuel exhaustion is an artifact). -/
def Res.abnormal : Res → Bool
  | .hostAbort => true
  | .outOfFuel => true
  | _ => false

/-! ## Environment store

Modelled from the spec (sections 3.4 and 4.3): Get searches the current
scope then climbs the parent chain; Set writes unconditionally to the
innermost scope; NewEnclosedEnvironment creates a child with the given
parent.  A reference is an index into the store; new environments are
appended, so a parent reference always points at an earlier entry. -/

structure EnvData where
  bindings : List (String × Option Obj)
  parent : Option Nat
  deriving Repr

abbrev State := List EnvData

def newEnvironment (st : State) : Nat × State :=
  (st.length, st ++ [⟨[], none⟩])

def newEnclosedEnvironment (parent : Nat) (st : State) : Nat × State :=
  (st.length, st ++ [⟨[], some parent⟩])

/-- Replace the binding for a name if present, else append it. -/
def bindingsSet : List (String × Option Obj) → String → Option Obj → List (String × Option Obj)
  | [], name, v => [(name, v)]
  | (n, w) :: rest, name, v =>
    if n = name then (n, v) :: rest else (n, w) :: bindingsSet rest name v

def bindingsGet : List (String × Option Obj) → String → Option (Option Obj)
  | [], _ => none
  | (n, w) :: rest, name => if n = name then some w else bindingsGet rest name

/-- Environment.Set: write into the innermost scope of the referenced
environment. -/
def envSet (st : State) (ref : Nat) (name : String) (v : Option Obj) : State :=
  match st.get? ref with
  | none => st
  | some ed => st.set ref ⟨bindingsSet ed.bindings name v, ed.parent⟩

/-- Environment.Get: search the referenced scope, then the parent chain.
The fuel bounds the chain length; parents of well-formed states point at
strictly earlier entries, so `st.length` steps always suffice. -/
def envGetAux : Nat → State → Nat → String → Option (Option Obj)
  | 0, _, _, _ => none
  | fuel + 1, st, ref, name =>
    match st.get? ref with
    | none => none
    | some ed =>
      match bindingsGet ed.bindings name with
      | some v => some v
      | none =>
        match ed.parent with
        | none => none
        | some p => envGetAux fuel st p name

def envGet (st : State) (ref : Nat) (name : String) : Option (Option Obj) :=
  envGetAux (st.length + 1) st ref name

/-- Sequencing that lets a host abort or fuel exhaustion propagate,
mirroring how a Go panic unwinds past the calling code. -/
def seqRes (r : Res × State) (k : Res → State → Res × State) : Res × State :=
  match r with
  | (.hostAbort, st) => (.hostAbort, st)
  | (.outOfFuel, st) => (.outOfFuel, st)
  | (r', st) => k r' st

/-! ## Evaluator helpers (src/unnamed/part_002 final revision) -/

/-- Two's-complement wrap-around of Go int64 arithmetic. -/
def wrap64 (n : Int) : Int := (n + 2 ^ 63) % 2 ^ 64 - 2 ^ 63

def newError (message : String) : Obj := .error message

/-- isError: nil is not an error; otherwise check the type tag. -/
def isErrorO : Option Obj → Bool
  | none => false
  | some o => objType o = "ERROR"

def isErrorR (r : Res) : Bool := isErrorO r.toOpt

def nativeBoolToBooleanObject (input : Bool) : Obj := .boolean input

/-- Go pointer equality of two object interface values, as used by the
== and != fall-through cases.  Exact for the singletons TRUE, FALSE and
NULL, for the per-name builtin registry entries, for nil, and for
operands of different dynamic types (always unequal).  Two separately
allocated composite or integer/string objects compare unequal; aliasing
of one allocation reached twice is not tracked by this value-level
embedding, and no claim below depends on it (integer and string operands
never reach these cases: they are handled earlier by value). -/
def ptrEq : Option Obj → Option Obj → Bool
  | none, none => true
  | some (.boolean a), some (.boolean b) => a = b
  | some .null, some .null => true
  | some (.builtin a), some (.builtin b) => a = b
  | _, _ => false

def isTruthyR : Res → Bool
  | .ok (.boolean true) => true
  | .ok (.boolean false) => false
  | .ok .null => false
  | .ok _ => true
  | .goNil => true
  | _ => true

def evalBangOperatorExpression : Option Obj → Obj
  | some (.boolean true) => nativeBoolToBooleanObject false
  | some (.boolean false) => nativeBoolToBooleanObject true
  | some .null => nativeBoolToBooleanObject true
  | _ => nativeBoolToBooleanObject false

/-- The minus case calls exp.Type(), which dereferences nil. -/
def evalMinusOperatorExpression : Option Obj → Res
  | none => .hostAbort
  | some (.integer value) => .ok (.integer (wrap64 (-value)))
  | some o => .ok (newError ("unkown operator: " ++ ("-" ++ objType o)))

def evalPrefixExpression (operator : String) (right : Option Obj) : Res :=
  if operator = "!" then .ok (evalBangOperatorExpression right)
  else if operator = "-" then evalMinusOperatorExpression right
  else
    match right with
    | none => .hostAbort
    | some o => .ok (newError ("unkown operator: " ++ (operator ++ objType o)))

/-- Integer infix dispatch.  Division is Go int64 division: truncation
toward zero, wrap-around on overflow, and a runtime abort on a zero
divisor. -/
def evalIntegerInfixOperator (l : Int) (operator : String) (r : Int) : Res :=
  if operator = "+" then .ok (.integer (wrap64 (l + r)))
  else if operator = "-" then .ok (.integer (wrap64 (l - r)))
  else if operator = "*" then .ok (.integer (wrap64 (l * r)))
  else if operator = "/" then
    if r = 0 then .hostAbort else .ok (.integer (wrap64 (Int.tdiv l r)))
  else if operator = "==" then .ok (nativeBoolToBooleanObject (l == r))
  else if operator = "!=" then .ok (nativeBoolToBooleanObject (l != r))
  else if operator = ">" then .ok (nativeBoolToBooleanObject (r < l))
  else if operator = "<" then .ok (nativeBoolToBooleanObject (l < r))
  else .ok (newError ("unkown operator: " ++ ("INTEGER " ++ (operator ++ " INTEGER"))))

/-- The three cases after the integer and string cases of
evalInfixExpression: identity comparison for == and !=, then the type
mismatch and unknown operator errors (both of which call Type() on both
operands, so a nil operand aborts there). -/
def evalInfixTail (left : Option Obj) (operator : String) (right : Option Obj) : Res :=
  if operator = "==" then .ok (nativeBoolToBooleanObject (ptrEq left right))
  else if operator = "!=" then .ok (nativeBoolToBooleanObject (!ptrEq left right))
  else
    match left, right with
    | none, _ => .hostAbort
    | _, none => .hostAbort
    | some l, some r =>
      if objType l ≠ objType r then
        .ok (newError ("type mismatch: " ++
          (objType l ++ (" " ++ (operator ++ (" " ++ objType r))))))
      else
        .ok (newError ("unkown operator: " ++
          (objType l ++ (" " ++ (operator ++ (" " ++ objType r))))))

/-- evalInfixExpression.  The first switch case evaluates
right.Type() and then left.Type(), so a nil operand aborts exactly where
Go dereferences it; Go's && short-circuits, which is why a nil left
operand survives when the right operand is neither INTEGER nor STRING. -/
def evalInfixExpression (left : Option Obj) (operator : String) (right : Option Obj) : Res :=
  match right with
  | none => .hostAbort
  | some r =>
    if objType r = "INTEGER" then
      match left with
      | none => .hostAbort
      | some l =>
        match l, r with
        | .integer lv, .integer rv => evalIntegerInfixOperator lv operator rv
        | _, _ => evalInfixTail (some l) operator (some r)
    else if objType r = "STRING" then
      match left with
      | none => .hostAbort
      | some l =>
        match l, r with
        | .str lv, .str rv =>
          if operator = "+" then .ok (.str (lv ++ rv))
          else .ok (newError ("unkown operator: " ++ ("STRING " ++ (operator ++ " STRING"))))
        | _, _ => evalInfixTail (some l) operator (some r)
    else evalInfixTail left operator (some r)

/-- Modelled from the spec (section 9, Hash key hashing): Integer and
Boolean keys hash by value, String keys by byte content; only these
three kinds implement Hashable. -/
def hashKeyOf : Obj → Option HashKey
  | .integer v => some (.intK v)
  | .boolean v => some (.boolK v)
  | .str v => some (.strK v)
  | _ => none

/-- Insert into the object-level hash map (Go map assignment: replace or
add). -/
def hashInsert : List (HashKey × Obj × Option Obj) → HashKey → Obj → Option Obj →
    List (HashKey × Obj × Option Obj)
  | [], k, ko, v => [(k, ko, v)]
  | (k', ko', v') :: rest, k, ko, v =>
    if k' = k then (k', ko, v) :: rest else (k', ko', v') :: hashInsert rest k ko v

def hashLookup : List (HashKey × Obj × Option Obj) → HashKey → Option (Obj × Option Obj)
  | [], _ => none
  | (k', ko, v) :: rest, k => if k' = k then some (ko, v) else hashLookup rest k

/-- unwrapReturnValue. -/
def unwrapReturnValue : Res → Res
  | .ok (.returnValue v) => Res.ofOpt v
  | r => r

/-- evalIdentifier: the environment chain first, then the builtin
registry (src/evaluator/builtins.go), then the error. -/
def evalIdentifier (name : String) (ref : Nat) (st : State) : Res :=
  match envGet st ref name with
  | some v => Res.ofOpt v
  | none =>
    if name = "push" ∨ name = "len" ∨ name = "first" ∨ name = "last" ∨ name = "rest" then
      .ok (.builtin name)
    else
      .ok (newError ("identifier not found: " ++ name))

/-! ## Builtins (src/evaluator/builtins.go)

Each builtin checks its own arity.  In the default branch of each type
switch Go formats args[0].Type(), so a nil first argument aborts there. -/

def builtinPush (args : List (Option Obj)) : Res :=
  if args.length ≠ 2 then
    .ok (newError ("wrong number of arguments. expected=2 got=" ++ toString args.length))
  else
    match args with
    | some (.array elements) :: a1 :: _ => .ok (.array (elements ++ [a1]))
    | none :: _ => .hostAbort
    | some o :: _ => .ok (newError ("argument to `push` not supported, got " ++ objType o))
    | [] => .hostAbort

def builtinLen (args : List (Option Obj)) : Res :=
  if args.length ≠ 1 then
    .ok (newError ("wrong number of arguments. expected=1 got=" ++ toString args.length))
  else
    match args with
    | [some (.str value)] => .ok (.integer (value.utf8ByteSize : Int))
    | [some (.array elements)] => .ok (.integer (elements.length : Int))
    | [none] => .hostAbort
    | [some o] => .ok (newError ("argument to `len` not supported, got " ++ objType o))
    | _ => .hostAbort

def builtinFirst (args : List (Option Obj)) : Res :=
  if args.length ≠ 1 then
    .ok (newError ("wrong number of arguments. expected=1 got=" ++ toString args.length))
  else
    match args with
    | [some (.array elements)] =>
      if elements.length = 0 then .ok .null
      else Res.ofOpt (elements.getD 0 none)
    | [none] => .hostAbort
    | [some o] => .ok (newError ("argument to `first` not supported, got " ++ objType o))
    | _ => .hostAbort

def builtinLast (args : List (Option Obj)) : Res :=
  if args.length ≠ 1 then
    .ok (newError ("wrong number of arguments. expected=1 got=" ++ toString args.length))
  else
    match args with
    | [some (.array elements)] =>
      if elements.length = 0 then .ok .null
      else Res.ofOpt (elements.getD (elements.length - 1) none)
    | [none] => .hostAbort
    | [some o] => .ok (newError ("argument to `last` not supported, got " ++ objType o))
    | _ => .hostAbort

def builtinRest (args : List (Option Obj)) : Res :=
  if args.length ≠ 1 then
    .ok (newError ("wrong number of arguments. expected=1 got=" ++ toString args.length))
  else
    match args with
    | [some (.array elements)] =>
      if elements.length < 2 then .ok .null else .ok (.array elements.tail)
    | [none] => .hostAbort
    | [some o] => .ok (newError ("argument to `rest` not supported, got " ++ objType o))
    | _ => .hostAbort

def applyBuiltin (name : String) (args : List (Option Obj)) : Res :=
  if name = "push" then builtinPush args
  else if name = "len" then builtinLen args
  else if name = "first" then builtinFirst args
  else if name = "last" then builtinLast args
  else if name = "rest" then builtinRest args
  else .hostAbort

/-- extendFunctionEnv: a fresh child of the function's captured
environment; each parameter is bound to args[paramIndex], and Go's slice
indexing aborts the process when there are fewer arguments than
parameters (`none` models that abort). -/
def bindParameters : List String → List (Option Obj) → Nat → State → Option State
  | [], _, _, st => some st
  | _ :: _, [], _, _ => none
  | p :: ps, a :: as', ref, st => bindParameters ps as' ref (envSet st ref p a)

def extendFunctionEnv (parameters : List String) (args : List (Option Obj)) (fnEnv : Nat)
    (st : State) : Option (Nat × State) :=
  let (ref, st') := newEnclosedEnvironment fnEnv st
  match bindParameters parameters args ref st' with
  | none => none
  | some st'' => some (ref, st'')

/-! ## The evaluator (src/unnamed/part_002 final revision)

Go's `Eval` is one type switch over AST nodes; here it is split into
`evalExpr` and `evalStmt` for the two syntactic categories.  Every
function of the mutual block consumes one unit of fuel on entry; this is
only what makes the Lean definitions total, every recursive call of the
Go code is transcribed unchanged. -/

mutual

def evalExpr (fuel : Nat) (e : Expr) (env : Nat) (st : State) : Res × State :=
  match fuel with
  | 0 => (.outOfFuel, st)
  | fuel + 1 =>
    match e with
    | .nilE => (.goNil, st)
    | .ident name => (evalIdentifier name env st, st)
    | .intLit _ value => (.ok (.integer value), st)
    | .boolLit _ value => (.ok (nativeBoolToBooleanObject value), st)
    | .strLit value => (.ok (.str value), st)
    | .prefixE operator right =>
      seqRes (evalExpr fuel right env st) fun r st1 =>
        if isErrorR r then (r, st1)
        else (evalPrefixExpression operator r.toOpt, st1)
    | .infixE left operator right =>
      seqRes (evalExpr fuel right env st) fun r st1 =>
        if isErrorR r then (r, st1)
        else
          seqRes (evalExpr fuel left env st1) fun l st2 =>
            if isErrorR l then (l, st2)
            else (evalInfixExpression l.toOpt operator r.toOpt, st2)
    | .ifE c cons alt => evalIfExpression fuel c cons alt env st
    | .fnE parameters body => (.ok (.function parameters body env), st)
    | .callE function parameters =>
      seqRes (evalExpr fuel function env st) fun f st1 =>
        if isErrorR f then (f, st1)
        else
          match evalExpressions fuel parameters env st1 [] with
          | (.error r, st2) => (r, st2)
          | (.ok args, st2) =>
            if args.length == 1 && isErrorO (args.headD none) then
              (Res.ofOpt (args.headD none), st2)
            else applyFunction fuel f.toOpt args st2
    | .arrayE elements =>
      match evalExpressions fuel elements env st [] with
      | (.error r, st1) => (r, st1)
      | (.ok els, st1) =>
        if els.length == 1 && isErrorO (els.headD none) then
          (Res.ofOpt (els.headD none), st1)
        else (.ok (.array els), st1)
    | .hashE pairs => evalHashPairs fuel pairs env st []
    | .indexE target index =>
      seqRes (evalExpr fuel target env st) fun t st1 =>
        match t with
        | .ok (.array elements) =>
          seqRes (evalExpr fuel index env st1) fun i st2 =>
            match i.toOpt with
            | none => (.hostAbort, st2)
            | some io =>
              match io with
              | .integer iv =>
                if iv < 0 then
                  (.ok (newError ("Cannot index with a negative number " ++ toString iv)), st2)
                else if (elements.length : Int) ≤ iv then
                  (.ok (newError ("Index is larger than the max. index=" ++ (toString iv ++
                    (", max=" ++ toString ((elements.length : Int) - 1))))), st2)
                else (Res.ofOpt (elements.getD iv.toNat none), st2)
              | _ => (.ok (newError ("Cannot use as index " ++ objType io)), st2)
        | .ok (.hash pairs) =>
          seqRes (evalExpr fuel index env st1) fun i st2 =>
            match i.toOpt with
            | none => (.hostAbort, st2)
            | some io =>
              match hashKeyOf io with
              | none => (.ok (newError ("Cannot use as index " ++ objType io)), st2)
              | some k =>
                match hashLookup pairs k with
                | none => (.goNil, st2)
                | some (_, v) => (Res.ofOpt v, st2)
        | .ok o => (.ok (newError ("Cannot index type " ++ objType o)), st1)
        | _ => (.hostAbort, st1)
termination_by structural fuel

def evalStmt (fuel : Nat) (s : Stmt) (env : Nat) (st : State) : Res × State :=
  match fuel with
  | 0 => (.outOfFuel, st)
  | fuel + 1 =>
    match s with
    | .letS name value => evalLetStatement fuel name value env st
    | .returnS value => evalReturnStatement fuel value env st
    | .exprS e => evalExpr fuel e env st
termination_by structural fuel

/-- evalLetStatement: evaluate the value, propagate errors, otherwise
bind the name in the current environment and return the value. -/
def evalLetStatement (fuel : Nat) (name : String) (value : Expr) (env : Nat) (st : State) :
    Res × State :=
  match fuel with
  | 0 => (.outOfFuel, st)
  | fuel + 1 =>
    seqRes (evalExpr fuel value env st) fun val st1 =>
      if isErrorR val then (val, st1)
      else (val, envSet st1 env name val.toOpt)
termination_by structural fuel

/-- evalReturnStatement: evaluate the value, propagate errors, otherwise
wrap in a ReturnValue. -/
def evalReturnStatement (fuel : Nat) (value : Expr) (env : Nat) (st : State) : Res × State :=
  match fuel with
  | 0 => (.outOfFuel, st)
  | fuel + 1 =>
    seqRes (evalExpr fuel value env st) fun val st1 =>
      if isErrorR val then (val, st1)
      else (.ok (.returnValue val.toOpt), st1)
termination_by structural fuel

/-- evalIfExpression. -/
def evalIfExpression (fuel : Nat) (cond : Expr) (cons : List Stmt) (alt : Option (List Stmt))
    (env : Nat) (st : State) : Res × State :=
  match fuel with
  | 0 => (.outOfFuel, st)
  | fuel + 1 =>
    seqRes (evalExpr fuel cond env st) fun c st1 =>
      if isErrorR c then (c, st1)
      else if isTruthyR c then evalBlockStatement fuel cons env st1 .goNil
      else
        match alt with
        | some b => evalBlockStatement fuel b env st1 .goNil
        | none => (.ok .null, st1)
termination_by structural fuel

/-- evalBlockStatement: the loop over a block's statements; `result`
carries the running value (Go's nil-initialised `result` variable).  A
RETURN_VALUE or ERROR result is returned without unwrapping. -/
def evalBlockStatement (fuel : Nat) (stmts : List Stmt) (env : Nat) (st : State) (result : Res) :
    Res × State :=
  match fuel with
  | 0 => (.outOfFuel, st)
  | fuel + 1 =>
    match stmts with
    | [] => (result, st)
    | s :: rest =>
      seqRes (evalStmt fuel s env st) fun r st1 =>
        match r with
        | .ok o =>
          if objType o = "RETURN_VALUE" ∨ objType o = "ERROR" then (.ok o, st1)
          else evalBlockStatement fuel rest env st1 (.ok o)
        | r' => evalBlockStatement fuel rest env st1 r'
termination_by structural fuel

/-- evalExpressions: left-to-right, short-circuiting to a singleton list
holding the first error. -/
def evalExpressions (fuel : Nat) (exps : List Expr) (env : Nat) (st : State)
    (results : List (Option Obj)) : Except Res (List (Option Obj)) × State :=
  match fuel with
  | 0 => (.error .outOfFuel, st)
  | fuel + 1 =>
    match exps with
    | [] => (.ok results, st)
    | e :: rest =>
      match evalExpr fuel e env st with
      | (.hostAbort, st1) => (.error .hostAbort, st1)
      | (.outOfFuel, st1) => (.error .outOfFuel, st1)
      | (r, st1) =>
        if isErrorR r then (.ok [r.toOpt], st1)
        else evalExpressions fuel rest env st1 (results ++ [r.toOpt])
termination_by structural fuel

/-- The HashLiteral arm of Eval: for each pair the value is evaluated
before the key (a source oddity the spec preserves); no error check is
made on either result.  A key that is not hashable yields the
"Cannot use as key" error (dereferencing a nil key there aborts); the
pair is stored even when the value is an Error.  The AST pairs are a Go
map; this embedding iterates them in list order. -/
def evalHashPairs (fuel : Nat) (pairs : List (Expr × Expr)) (env : Nat) (st : State)
    (acc : List (HashKey × Obj × Option Obj)) : Res × State :=
  match fuel with
  | 0 => (.outOfFuel, st)
  | fuel + 1 =>
    match pairs with
    | [] => (.ok (.hash acc), st)
    | (k, v) :: rest =>
      seqRes (evalExpr fuel v env st) fun value st1 =>
        seqRes (evalExpr fuel k env st1) fun keyObj st2 =>
          match keyObj.toOpt with
          | none => (.hostAbort, st2)
          | some ko =>
            match hashKeyOf ko with
            | none => (.ok (newError ("Cannot use as key " ++ objType ko)), st2)
            | some hk => evalHashPairs fuel rest env st2 (hashInsert acc hk ko value.toOpt)
termination_by structural fuel

/-- applyFunction: user functions get a fresh environment extending
their captured one and the evaluated body is unwrapped once; builtins
are applied to the argument vector; anything else is the
"not a function" error carrying the host type representation. -/
def applyFunction (fuel : Nat) (fn : Option Obj) (args : List (Option Obj)) (st : State) :
    Res × State :=
  match fuel with
  | 0 => (.outOfFuel, st)
  | fuel + 1 =>
    match fn with
    | some (.function parameters body fnEnv) =>
      match extendFunctionEnv parameters args fnEnv st with
      | none => (.hostAbort, st)
      | some (closure, st1) =>
        let r := evalBlockStatement fuel body closure st1 .goNil
        (unwrapReturnValue r.1, r.2)
    | some (.builtin name) => (applyBuiltin name args, st)
    | _ => (.ok (newError ("not a function: " ++ goTypeRepr fn)), st)
termination_by structural fuel
end

/-- evalProgram: the top-level statement loop; a ReturnValue is unwrapped
here, an Error is returned as is. -/
def evalProgram (fuel : Nat) (stmts : List Stmt) (env : Nat) (st : State) (result : Res) :
    Res × State :=
  match fuel with
  | 0 => (.outOfFuel, st)
  | fuel + 1 =>
    match stmts with
    | [] => (result, st)
    | s :: rest =>
      seqRes (evalStmt fuel s env st) fun r st1 =>
        match r with
        | .ok (.returnValue v) => (Res.ofOpt v, st1)
        | .ok (.error m) => (.ok (.error m), st1)
        | r' => evalProgram fuel rest env st1 r'

/-- Evaluate a program the way the test harness and the REPL do: a fresh
global environment, then Eval on the Program node. -/
def runProgram (fuel : Nat) (stmts : List Stmt) : Res × State :=
  let (ref, st) := newEnvironment []
  evalProgram fuel stmts ref st .goNil

/-! ## Tokens (shared contract, package token; package not under src/)

Modelled from the spec (section 3.1) and the parser's uses.  The string
values of the token kinds follow the conventional Monkey token
constants; they appear only inside parser diagnostics. -/

inductive TokType where
  | ILLEGAL | EOFT | IDENT | INT | STRING
  | ASSIGN | PLUS | MINUS | BANG | ASTERISK | SLASH
  | LT | GT | EQ | NOT_EQ
  | COMMA | SEMICOLON | COLON
  | LPAREN | RPAREN | LBRACE | RBRACE | LBRACKET | RBRACKET
  | FUNCTION | LET | TRUE | FALSE | IF | ELSE | RETURN
  deriving Repr, DecidableEq

def tokTypeStr : TokType → String
  | .ILLEGAL => "ILLEGAL"
  | .EOFT => "EOF"
  | .IDENT => "IDENT"
  | .INT => "INT"
  | .STRING => "STRING"
  | .ASSIGN => "="
  | .PLUS => "+"
  | .MINUS => "-"
  | .BANG => "!"
  | .ASTERISK => "*"
  | .SLASH => "/"
  | .LT => "<"
  | .GT => ">"
  | .EQ => "=="
  | .NOT_EQ => "!="
  | .COMMA => ","
  | .SEMICOLON => ";"
  | .COLON => ":"
  | .LPAREN => "("
  | .RPAREN => ")"
  | .LBRACE => "\x7b"
  | .RBRACE => "\x7d"
  | .LBRACKET => "["
  | .RBRACKET => "]"
  | .FUNCTION => "FUNCTION"
  | .LET => "LET"
  | .TRUE => "TRUE"
  | .FALSE => "FALSE"
  | .IF => "IF"
  | .ELSE => "ELSE"
  | .RETURN => "RETURN"

structure Token where
  type : TokType
  literal : String
  deriving Repr, DecidableEq

def eofToken : Token := ⟨.EOFT, ""⟩

/-! ## Parser (src/unnamed/part_000)

The parser state is the remaining token stream (the lexer yields the
end-of-input token indefinitely once exhausted, so the current and peek
tokens default to EOF) together with the accumulated error list.  The
two dispatch tables registered in `New` are fixed, so they are encoded
as matches on the token kind inside `parseExpression`.  As in the
evaluator, every function of the mutual block consumes one unit of fuel
on entry; the Go parser can actually loop forever on some malformed
inputs (its lexer keeps yielding EOF), which fuel exhaustion models. -/

structure PState where
  toks : List Token
  errors : List String
  deriving Repr

def curToken (p : PState) : Token := p.toks.headD eofToken

def peekToken (p : PState) : Token := (p.toks.drop 1).headD eofToken

def nextToken (p : PState) : PState := ⟨p.toks.drop 1, p.errors⟩

def currTokenIs (p : PState) (t : TokType) : Bool := (curToken p).type = t

def peekTokenIs (p : PState) (t : TokType) : Bool := (peekToken p).type = t

/-- NOTE of the source: the order encodes operator precedence. -/
def LOWEST : Nat := 1
def EQUALS : Nat := 2
def LESSGREATER : Nat := 3
def SUM : Nat := 4
def PRODUCT : Nat := 5
def PREFIX : Nat := 6
def INDEX : Nat := 7
def CALL : Nat := 8

/-- The `precedences` table; kinds not in the table get LOWEST. -/
def precedences : TokType → Nat
  | .EQ => EQUALS
  | .NOT_EQ => EQUALS
  | .LT => LESSGREATER
  | .GT => LESSGREATER
  | .PLUS => SUM
  | .MINUS => SUM
  | .SLASH => PRODUCT
  | .ASTERISK => PRODUCT
  | .LPAREN => CALL
  | .LBRACKET => INDEX
  | _ => LOWEST

def curPrecedence (p : PState) : Nat := precedences (curToken p).type

def peekPrecedence (p : PState) : Nat := precedences (peekToken p).type

def peekError (p : PState) (t : TokType) : PState :=
  ⟨p.toks, p.errors ++ ["unexpected next token expected=" ++ tokTypeStr t ++
    " got=" ++ tokTypeStr (peekToken p).type]⟩

def noPrefixParseError (p : PState) (t : TokType) : PState :=
  ⟨p.toks, p.errors ++ ["No prefix parse function found for " ++ tokTypeStr t]⟩

/-- expectPeek: advance past an expected token or record a diagnostic. -/
def expectPeek (p : PState) (t : TokType) : Bool × PState :=
  if peekTokenIs p t then (true, nextToken p)
  else (false, peekError p t)

/-- Go's strconv.ParseInt with base 0 restricted to the plain decimal
literals the lexer produces for the inputs under study (the lexer is an
external collaborator producing INT tokens from digit runs). -/
def parseIntLit (s : String) : Option Int :=
  if s.data.length ≠ 0 && s.data.all (fun c => 48 ≤ c.toNat && c.toNat ≤ 57) then
    some (s.data.foldl (fun acc c => acc * 10 + ((c.toNat : Int) - 48)) 0)
  else none

/-- Does the prefix dispatch table have an entry for this kind (the
table registered in New)? -/
def hasPrefixFn : TokType → Bool
  | .IDENT | .INT | .BANG | .MINUS | .TRUE | .FALSE
  | .LPAREN | .IF | .FUNCTION | .STRING | .LBRACKET => true
  | _ => false

/-- Does the infix dispatch table have an entry for this kind? -/
def hasInfixFn : TokType → Bool
  | .SLASH | .ASTERISK | .PLUS | .MINUS | .GT | .LT | .EQ | .NOT_EQ
  | .LPAREN | .LBRACKET => true
  | _ => false

def parseIdentifier (p : PState) : Expr := .ident (curToken p).literal

def parseBooleanExpression (p : PState) : Expr :=
  .boolLit (curToken p).literal (currTokenIs p .TRUE)

mutual

/-- ParseProgram: parse statements until end of input; nil statements
are not appended. -/
def parseProgram (fuel : Nat) (p : PState) : List Stmt × PState :=
  match fuel with
  | 0 => ([], p)
  | fuel + 1 =>
    if currTokenIs p .EOFT then ([], p)
    else
      let (stmt, p1) := parseStatement fuel p
      let (rest, p2) := parseProgram fuel (nextToken p1)
      match stmt with
      | none => (rest, p2)
      | some s => (s :: rest, p2)
termination_by structural fuel

def parseStatement (fuel : Nat) (p : PState) : Option Stmt × PState :=
  match fuel with
  | 0 => (none, p)
  | fuel + 1 =>
    match (curToken p).type with
    | .LET => parseLetStatement fuel p
    | .RETURN => parseReturnStatement fuel p
    | _ => parseExpressionStatement fuel p
termination_by structural fuel

/-- parseLetStatement.  As in the source: the result of expectPeek for
the = and for the ; is ignored, and the `let IDENT ;` form is discarded
without a diagnostic. -/
def parseLetStatement (fuel : Nat) (p : PState) : Option Stmt × PState :=
  match fuel with
  | 0 => (none, p)
  | fuel + 1 =>
    let (okIdent, p1) := expectPeek p .IDENT
    if !okIdent then (none, p1)
    else
      let name := (curToken p1).literal
      if peekTokenIs p1 .SEMICOLON then (none, nextToken p1)
      else
        let (_, p2) := expectPeek p1 .ASSIGN
        let p3 := nextToken p2
        let (value, p4) := parseExpression fuel LOWEST p3
        let (_, p5) := expectPeek p4 .SEMICOLON
        (some (.letS name (value.getD .nilE)), p5)
termination_by structural fuel

/-- parseReturnStatement; the trailing loop consumes consecutive
semicolons while they are in peek position. -/
def parseReturnStatement (fuel : Nat) (p : PState) : Option Stmt × PState :=
  match fuel with
  | 0 => (none, p)
  | fuel + 1 =>
    let p1 := nextToken p
    let (value, p2) := parseExpression fuel LOWEST p1
    let p3 := skipPeekSemicolons fuel p2
    (some (.returnS (value.getD .nilE)), p3)
termination_by structural fuel

def skipPeekSemicolons (fuel : Nat) (p : PState) : PState :=
  match fuel with
  | 0 => p
  | fuel + 1 =>
    if peekTokenIs p .SEMICOLON then skipPeekSemicolons fuel (nextToken p)
    else p
termination_by structural fuel

def parseExpressionStatement (fuel : Nat) (p : PState) : Option Stmt × PState :=
  match fuel with
  | 0 => (none, p)
  | fuel + 1 =>
    let (expr, p1) := parseExpression fuel LOWEST p
    let p2 := if peekTokenIs p1 .SEMICOLON then nextToken p1 else p1
    (some (.exprS (expr.getD .nilE)), p2)
termination_by structural fuel

/-- parseExpression: the Pratt driver.  The prefix routine for the
current kind runs first, then infix routines are consumed while the
peek token is neither ; nor , and binds strictly tighter than
`precedence`. -/
def parseExpression (fuel : Nat) (precedence : Nat) (p : PState) : Option Expr × PState :=
  match fuel with
  | 0 => (none, p)
  | fuel + 1 =>
    if !hasPrefixFn (curToken p).type then (none, noPrefixParseError p (curToken p).type)
    else
      let (leftExp, p1) := parsePrefixDispatch fuel p
      parseInfixLoop fuel precedence leftExp p1
termination_by structural fuel

/-- The registered prefix routine for the current token kind. -/
def parsePrefixDispatch (fuel : Nat) (p : PState) : Option Expr × PState :=
  match fuel with
  | 0 => (none, p)
  | fuel + 1 =>
    match (curToken p).type with
    | .IDENT => (some (parseIdentifier p), p)
    | .INT => parseIntegerLiteral fuel p
    | .BANG => parsePrefixExpression fuel p
    | .MINUS => parsePrefixExpression fuel p
    | .TRUE => (some (parseBooleanExpression p), p)
    | .FALSE => (some (parseBooleanExpression p), p)
    | .LPAREN => parseGroupedExpression fuel p
    | .IF => parseIfExpression fuel p
    | .FUNCTION => parseFunctionExpression fuel p
    | .STRING => (some (.strLit (curToken p).literal), p)
    | .LBRACKET => parseArrayLiteral fuel p
    | _ => (none, p)
termination_by structural fuel

/-- The while loop of parseExpression. -/
def parseInfixLoop (fuel : Nat) (precedence : Nat) (leftExp : Option Expr) (p : PState) :
    Option Expr × PState :=
  match fuel with
  | 0 => (leftExp, p)
  | fuel + 1 =>
    if !peekTokenIs p .SEMICOLON && !peekTokenIs p .COMMA && precedence < peekPrecedence p then
      if !hasInfixFn (peekToken p).type then (leftExp, p)
      else
        let p1 := nextToken p
        let (leftExp', p2) := parseInfixDispatch fuel (leftExp.getD .nilE) p1
        parseInfixLoop fuel precedence leftExp' p2
    else (leftExp, p)
termination_by structural fuel

/-- The registered infix routine for the current token kind. -/
def parseInfixDispatch (fuel : Nat) (left : Expr) (p : PState) : Option Expr × PState :=
  match fuel with
  | 0 => (none, p)
  | fuel + 1 =>
    match (curToken p).type with
    | .LPAREN => parseFunctionCall fuel left p
    | .LBRACKET => parseIndexingExpression fuel left p
    | _ => parseInfixExpression fuel left p
termination_by structural fuel

def parsePrefixExpression (fuel : Nat) (p : PState) : Option Expr × PState :=
  match fuel with
  | 0 => (none, p)
  | fuel + 1 =>
    let operator := (curToken p).literal
    let p1 := nextToken p
    let (right, p2) := parseExpression fuel PREFIX p1
    (some (.prefixE operator (right.getD .nilE)), p2)
termination_by structural fuel

def parseInfixExpression (fuel : Nat) (left : Expr) (p : PState) : Option Expr × PState :=
  match fuel with
  | 0 => (none, p)
  | fuel + 1 =>
    let operator := (curToken p).literal
    let precedence := curPrecedence p
    let p1 := nextToken p
    let (right, p2) := parseExpression fuel precedence p1
    (some (.infixE left operator (right.getD .nilE)), p2)
termination_by structural fuel

def parseIntegerLiteral (fuel : Nat) (p : PState) : Option Expr × PState :=
  match fuel with
  | 0 => (none, p)
  | _ + 1 =>
    match parseIntLit (curToken p).literal with
    | some value => (some (.intLit (curToken p).literal value), p)
    | none =>
      (none, ⟨p.toks, p.errors ++
        ["Could not parse \"" ++ (curToken p).literal ++ "\" as integer"]⟩)

def parseGroupedExpression (fuel : Nat) (p : PState) : Option Expr × PState :=
  match fuel with
  | 0 => (none, p)
  | fuel + 1 =>
    let p1 := nextToken p
    let (exp, p2) := parseExpression fuel LOWEST p1
    let (okParen, p3) := expectPeek p2 .RPAREN
    if !okParen then (none, p3) else (exp, p3)
termination_by structural fuel

def parseIfExpression (fuel : Nat) (p : PState) : Option Expr × PState :=
  match fuel with
  | 0 => (none, p)
  | fuel + 1 =>
    let (okL, p1) := expectPeek p .LPAREN
    if !okL then (none, p1)
    else
      let p2 := nextToken p1
      let (condition, p3) := parseExpression fuel LOWEST p2
      let (okR, p4) := expectPeek p3 .RPAREN
      if !okR then (none, p4)
      else
        let (okB, p5) := expectPeek p4 .LBRACE
        if !okB then (none, p5)
        else
          let (consequence, p6) := parseBlockStatement fuel p5
          if peekTokenIs p6 .ELSE then
            let p7 := nextToken p6
            let (okB2, p8) := expectPeek p7 .LBRACE
            if !okB2 then (none, p8)
            else
              let (alternative, p9) := parseBlockStatement fuel p8
              (some (.ifE (condition.getD .nilE) consequence (some alternative)), p9)
          else (some (.ifE (condition.getD .nilE) consequence none), p6)
termination_by structural fuel

def parseFunctionExpression (fuel : Nat) (p : PState) : Option Expr × PState :=
  match fuel with
  | 0 => (none, p)
  | fuel + 1 =>
    let (okL, p1) := expectPeek p .LPAREN
    if !okL then (none, p1)
    else
      let p2 := nextToken p1
      let (parameters, p3) := parseFunctionParameters fuel p2
      let (okB, p4) := expectPeek p3 .LBRACE
      if !okB then (none, p4)
      else
        let (body, p5) := parseBlockStatement fuel p4
        (some (.fnE parameters body), p5)
termination_by structural fuel

/-- parseFunctionParameters: parseIdentifier never fails, so the nil
check of the source never fires; the loop keeps the current token's
literal whatever its kind. -/
def parseFunctionParameters (fuel : Nat) (p : PState) : List String × PState :=
  match fuel with
  | 0 => ([], p)
  | fuel + 1 =>
    if currTokenIs p .RPAREN then ([], p)
    else
      let name := (curToken p).literal
      let p1 := if peekTokenIs p .COMMA then nextToken p else p
      let p2 := nextToken p1
      let (rest, p3) := parseFunctionParameters fuel p2
      (name :: rest, p3)
termination_by structural fuel

def parseBlockStatement (fuel : Nat) (p : PState) : List Stmt × PState :=
  match fuel with
  | 0 => ([], p)
  | fuel + 1 => parseBlockLoop fuel (nextToken p)
termination_by structural fuel

def parseBlockLoop (fuel : Nat) (p : PState) : List Stmt × PState :=
  match fuel with
  | 0 => ([], p)
  | fuel + 1 =>
    if !currTokenIs p .RBRACE && !currTokenIs p .EOFT then
      let (stmt, p1) := parseStatement fuel p
      let (rest, p2) := parseBlockLoop fuel (nextToken p1)
      match stmt with
      | none => (rest, p2)
      | some s => (s :: rest, p2)
    else ([], p)
termination_by structural fuel

def parseFunctionCall (fuel : Nat) (left : Expr) (p : PState) : Option Expr × PState :=
  match fuel with
  | 0 => (none, p)
  | fuel + 1 =>
    let p1 := nextToken p
    let (parameters, p2) := parseFunctionCallParameters fuel p1
    (some (.callE left parameters), p2)
termination_by structural fuel

def parseFunctionCallParameters (fuel : Nat) (p : PState) : List Expr × PState :=
  match fuel with
  | 0 => ([], p)
  | fuel + 1 =>
    if currTokenIs p .RPAREN then ([], p)
    else
      let (e, p1) := parseExpression fuel LOWEST p
      let p2 := if peekTokenIs p1 .COMMA then nextToken p1 else p1
      let p3 := nextToken p2
      let (rest, p4) := parseFunctionCallParameters fuel p3
      ((e.getD .nilE) :: rest, p4)
termination_by structural fuel

def parseArrayLiteral (fuel : Nat) (p : PState) : Option Expr × PState :=
  match fuel with
  | 0 => (none, p)
  | fuel + 1 =>
    let p1 := nextToken p
    let (elements, p2) := parseArrayElements fuel p1
    (some (.arrayE elements), p2)
termination_by structural fuel

def parseArrayElements (fuel : Nat) (p : PState) : List Expr × PState :=
  match fuel with
  | 0 => ([], p)
  | fuel + 1 =>
    if currTokenIs p .RBRACKET then ([], p)
    else
      let (e, p1) := parseExpression fuel LOWEST p
      let p2 := if peekTokenIs p1 .COMMA then nextToken p1 else p1
      let p3 := nextToken p2
      let (rest, p4) := parseArrayElements fuel p3
      ((e.getD .nilE) :: rest, p4)
termination_by structural fuel

def parseIndexingExpression (fuel : Nat) (left : Expr) (p : PState) : Option Expr × PState :=
  match fuel with
  | 0 => (none, p)
  | fuel + 1 =>
    let p1 := nextToken p
    let (index, p2) := parseExpression fuel LOWEST p1
    let (_, p3) := expectPeek p2 .RBRACKET
    (some (.indexE left (index.getD .nilE)), p3)
termination_by structural fuel
end

/-- Build a parser over a token stream (New) and run ParseProgram,
returning the program together with Errors(). -/
def runParser (fuel : Nat) (toks : List Token) : List Stmt × PState :=
  parseProgram fuel ⟨toks, []⟩

/-! ## Stringification (src/ast/ast.go)

The String() methods.  The statement printers check a nil child and
print "nil"; a nil child in an expression position would dereference nil
in Go, so the value chosen for `Expr.nilE` here is only ever observed
through the statement printers (no parsed program under study contains
one elsewhere). -/

mutual

def exprString : Expr → String
  | .nilE => "nil"
  | .ident value => value
  | .intLit lit _ => lit
  | .boolLit lit _ => lit
  | .strLit value => value
  | .prefixE operator right => "(" ++ operator ++ exprString right ++ ")"
  | .infixE left operator right =>
    "(" ++ exprString left ++ " " ++ operator ++ " " ++ exprString right ++ ")"
  | .ifE condition consequence alternative =>
    "if " ++ exprString condition ++ " " ++ blockString consequence ++
      (match alternative with
       | none => ""
       | some b => " else " ++ blockString b)
  | .fnE parameters body =>
    "fn" ++ "(" ++ String.intercalate "," parameters ++ ")" ++ blockString body
  | .callE function parameters =>
    exprString function ++ "(" ++ String.intercalate "," (exprStrings parameters) ++ ")"
  | .arrayE elements => "[" ++ String.intercalate "," (exprStrings elements) ++ "]"
  | .hashE pairs => "\x7b" ++ String.intercalate "," (pairStrings pairs) ++ "\x7d"
  | .indexE target index => exprString target ++ "[" ++ exprString index ++ "]"

def exprStrings : List Expr → List String
  | [] => []
  | e :: rest => exprString e :: exprStrings rest

def pairStrings : List (Expr × Expr) → List String
  | [] => []
  | (k, v) :: rest => (exprString k ++ ": " ++ exprString v) :: pairStrings rest

def stmtString : Stmt → String
  | .letS name value =>
    "let " ++ name ++ " = " ++
      (match value with
       | .nilE => "nil"
       | v => exprString v) ++ ";"
  | .returnS value =>
    "return " ++
      (match value with
       | .nilE => "nil"
       | v => exprString v) ++ ";"
  | .exprS e =>
    match e with
    | .nilE => "nil"
    | e' => exprString e'

def blockString : List Stmt → String
  | [] => ""
  | s :: rest => stmtString s ++ blockString rest

end

/-- Program.String(): statement strings concatenated. -/
def programString (stmts : List Stmt) : String := blockString stmts

/-- Modelled from the spec: the REPL (package repl, not under src/)
prints the parser errors and skips evaluation whenever the error list is
non-empty; otherwise it evaluates the parsed program in the session
environment (a fresh one here). -/
def replRun (fuel : Nat) (toks : List Token) : Option (Res × State) :=
  let (prog, p) := runParser fuel toks
  if p.errors.isEmpty then some (runProgram fuel prog) else none

/-! ## Shared lemmas about statement sequences

`notSignal` holds of the results on which the statement loops of
evalProgram and evalBlockStatement continue to the next statement:
everything except an Error, a ReturnValue, and the two abnormal
outcomes.  `StmtsRun` records a prefix of statements that all continue,
together with the fuel and state at which the remaining statements run. -/

def notSignal : Res → Bool
  | .ok o => !(objType o == "RETURN_VALUE" || objType o == "ERROR")
  | .goNil => true
  | _ => false

inductive StmtsRun (env : Nat) : Nat → List Stmt → State → Res → Nat → State → Res → Prop where
  | nil : ∀ fuel st acc, StmtsRun env fuel [] st acc fuel st acc
  | cons : ∀ fuel s rest st acc r st₀ f' st' acc',
      evalStmt fuel s env st = (r, st₀) →
      notSignal r = true →
      StmtsRun env fuel rest st₀ r f' st' acc' →
      StmtsRun env (fuel + 1) (s :: rest) st acc f' st' acc'

theorem evalBlockStatement_append {env fuel pre st acc f' st' acc'}
    (h : StmtsRun env fuel pre st acc f' st' acc') (l : List Stmt) :
    evalBlockStatement fuel (pre ++ l) env st acc = evalBlockStatement f' l env st' acc' := by
  induction h with
  | nil => rfl
  | cons fuel s rest st acc r st₀ f'' st'' acc'' hstep hns _ ih =>
    show evalBlockStatement (fuel + 1) (s :: (rest ++ l)) env st acc = _
    rw [evalBlockStatement, hstep]
    cases r with
    | ok o =>
      simp only [notSignal, Bool.not_eq_true', Bool.or_eq_false_iff, beq_eq_false_iff_ne,
        ne_eq] at hns
      simp only [seqRes]
      rw [if_neg (by tauto)]
      exact ih
    | goNil => exact ih
    | hostAbort => simp [notSignal] at hns
    | outOfFuel => simp [notSignal] at hns

theorem evalProgram_append {env fuel pre st acc f' st' acc'}
    (h : StmtsRun env fuel pre st acc f' st' acc') (l : List Stmt) :
    evalProgram fuel (pre ++ l) env st acc = evalProgram f' l env st' acc' := by
  induction h with
  | nil => rfl
  | cons fuel s rest st acc r st₀ f'' st'' acc'' hstep hns _ ih =>
    show evalProgram (fuel + 1) (s :: (rest ++ l)) env st acc = _
    rw [evalProgram, hstep]
    cases r with
    | ok o =>
      cases o with
      | returnValue v => simp [notSignal, objType] at hns
      | error m => simp [notSignal, objType] at hns
      | integer v => exact ih
      | boolean v => exact ih
      | null => exact ih
      | str v => exact ih
      | array es => exact ih
      | hash ps => exact ih
      | function a b c => exact ih
      | builtin n => exact ih
    | goNil => exact ih
    | hostAbort => simp [notSignal] at hns
    | outOfFuel => simp [notSignal] at hns

/-! ## Concrete programs used by the claims -/

/-- Integer literal shorthand for the concrete programs. -/
def iL (n : Int) : Expr := .intLit (toString n) n

/-- The spec's nested-return program:
if (10 > 1) \x7b if (10 > 1) \x7b return 10; \x7d return 1; \x7d -/
def nestedReturnProgram : List Stmt :=
  [.exprS (.ifE (.infixE (iL 10) ">" (iL 1))
    [ .exprS (.ifE (.infixE (iL 10) ">" (iL 1)) [.returnS (iL 10)] none),
      .returnS (iL 1) ] none)]

/-- let f = fn() \x7b return 1; \x7d; f(); 2 -/
def fnReturnCallerProgram : List Stmt :=
  [.letS "f" (.fnE [] [.returnS (iL 1)]),
   .exprS (.callE (.ident "f") []),
   .exprS (iL 2)]

/-- let adder = fn(x) \x7b fn(y) \x7b x + y \x7d \x7d; adder(2)(3) -/
def adderProgram : List Stmt :=
  [.letS "adder" (.fnE ["x"]
     [.exprS (.fnE ["y"] [.exprS (.infixE (.ident "x") "+" (.ident "y"))])]),
   .exprS (.callE (.callE (.ident "adder") [iL 2]) [iL 3])]

/-! ## Claim C1 -/

/-- C1: Return statements punch through nested blocks but not function
boundaries.  (i) When a statement of a block (after any prefix of
normally completing statements) evaluates to a ReturnValue or Error
signal, evalBlockStatement returns that very result, without
unwrapping.  (ii) At the program top level the ReturnValue wrapper is
unwrapped.  (iii) At function application the ReturnValue produced by
the body is unwrapped before returning to the caller.  (iv) The spec's
nested-if program evaluates to the Integer 10, and (v) a return inside
a called function terminates only that function: the caller program
continues and yields 2. -/
theorem claim_C1_return_punches_blocks :
    (∀ env fuel pre s rest st acc f' st₁ acc' st' o,
      StmtsRun env fuel pre st acc (f' + 1) st₁ acc' →
      evalStmt f' s env st₁ = (.ok o, st') →
      objType o = "RETURN_VALUE" ∨ objType o = "ERROR" →
      evalBlockStatement fuel (pre ++ s :: rest) env st acc = (.ok o, st'))
    ∧ (∀ env fuel pre s rest st acc f' st₁ acc' st' v,
      StmtsRun env fuel pre st acc (f' + 1) st₁ acc' →
      evalStmt f' s env st₁ = (.ok (.returnValue v), st') →
      evalProgram fuel (pre ++ s :: rest) env st acc = (Res.ofOpt v, st'))
    ∧ (∀ fuel parameters body fnEnv args st closure st₁ st₂ v,
      extendFunctionEnv parameters args fnEnv st = some (closure, st₁) →
      evalBlockStatement fuel body closure st₁ .goNil = (.ok (.returnValue v), st₂) →
      applyFunction (fuel + 1) (some (.function parameters body fnEnv)) args st =
        (Res.ofOpt v, st₂))
    ∧ (runProgram 50 nestedReturnProgram).1 = .ok (.integer 10)
    ∧ (runProgram 50 fnReturnCallerProgram).1 = .ok (.integer 2) := by
  refine ⟨?_, ?_, ?_, ?_, ?_⟩
  · intro env fuel pre s rest st acc f' st₁ acc' st' o hrun hstep hsig
    rw [evalBlockStatement_append hrun (s :: rest), evalBlockStatement, hstep]
    simp only [seqRes]
    rw [if_pos hsig]
  · intro env fuel pre s rest st acc f' st₁ acc' st' v hrun hstep
    rw [evalProgram_append hrun (s :: rest), evalProgram, hstep]
    rfl
  · intro fuel parameters body fnEnv args st closure st₁ st₂ v hext hbody
    simp only [applyFunction, hext, hbody]
    rfl
  · rfl
  · rfl

/-- Witness for claim C1: every hypothesis of the general conjuncts is
dischargeable at concrete inputs (empty prefix, a single return
statement; a zero-parameter function whose body returns 7). -/
theorem claim_C1_return_punches_blocks_witness :
    evalBlockStatement 4 ([] ++ Stmt.returnS (iL 9) :: []) 0 [⟨[], none⟩] .goNil =
      (.ok (.returnValue (some (.integer 9))), [⟨[], none⟩])
    ∧ evalProgram 4 ([] ++ Stmt.returnS (iL 9) :: []) 0 [⟨[], none⟩] .goNil =
      (.ok (.integer 9), [⟨[], none⟩])
    ∧ applyFunction 5 (some (.function [] [.returnS (iL 7)] 0)) [] [⟨[], none⟩] =
      (.ok (.integer 7), [⟨[], none⟩, ⟨[], some 0⟩]) := by
  refine ⟨?_, ?_, ?_⟩
  · exact claim_C1_return_punches_blocks.1 0 4 [] (.returnS (iL 9)) [] [⟨[], none⟩] .goNil 3
      [⟨[], none⟩] .goNil [⟨[], none⟩] (.returnValue (some (.integer 9)))
      (StmtsRun.nil 4 [⟨[], none⟩] .goNil) (by rfl) (by left; rfl)
  · exact claim_C1_return_punches_blocks.2.1 0 4 [] (.returnS (iL 9)) [] [⟨[], none⟩] .goNil 3
      [⟨[], none⟩] .goNil [⟨[], none⟩] (some (.integer 9))
      (StmtsRun.nil 4 [⟨[], none⟩] .goNil) (by rfl)
  · exact claim_C1_return_punches_blocks.2.2.1 4 [] [.returnS (iL 7)] 0 [] [⟨[], none⟩]
      1 [⟨[], none⟩, ⟨[], some 0⟩] [⟨[], none⟩, ⟨[], some 0⟩] (some (.integer 7))
      (by rfl) (by rfl)

/-! ## Claim C2 -/

/-- Token streams for the spec's operator-precedence examples (the
tokenizer is an external collaborator; these are its documented outputs
for the example inputs). -/
def toksNegAMulB : List Token :=
  [⟨.MINUS, "-"⟩, ⟨.IDENT, "a"⟩, ⟨.ASTERISK, "*"⟩, ⟨.IDENT, "b"⟩]

def toksBangNegA : List Token :=
  [⟨.BANG, "!"⟩, ⟨.MINUS, "-"⟩, ⟨.IDENT, "a"⟩]

def toksSumProd : List Token :=
  [⟨.IDENT, "a"⟩, ⟨.PLUS, "+"⟩, ⟨.IDENT, "b"⟩, ⟨.SLASH, "/"⟩, ⟨.IDENT, "c"⟩,
   ⟨.PLUS, "+"⟩, ⟨.IDENT, "d"⟩, ⟨.ASTERISK, "*"⟩, ⟨.IDENT, "e"⟩,
   ⟨.MINUS, "-"⟩, ⟨.IDENT, "f"⟩]

def toksEqMix : List Token :=
  [⟨.INT, "3"⟩, ⟨.PLUS, "+"⟩, ⟨.INT, "4"⟩, ⟨.ASTERISK, "*"⟩, ⟨.INT, "5"⟩,
   ⟨.EQ, "=="⟩, ⟨.INT, "3"⟩, ⟨.ASTERISK, "*"⟩, ⟨.INT, "1"⟩, ⟨.PLUS, "+"⟩,
   ⟨.INT, "4"⟩, ⟨.ASTERISK, "*"⟩, ⟨.INT, "5"⟩]

def toksCallMix : List Token :=
  [⟨.IDENT, "a"⟩, ⟨.PLUS, "+"⟩, ⟨.IDENT, "add"⟩, ⟨.LPAREN, "("⟩,
   ⟨.IDENT, "b"⟩, ⟨.PLUS, "+"⟩, ⟨.IDENT, "c"⟩, ⟨.RPAREN, ")"⟩,
   ⟨.ASTERISK, "*"⟩, ⟨.IDENT, "d"⟩]

/-- C2: for every operator-precedence example input of the spec,
parsing and stringifying yields the fully parenthesised left-associated
form, with no parse errors recorded. -/
theorem claim_C2_precedence_round_trip :
    programString (runParser 100 toksNegAMulB).1 = "((-a) * b)"
    ∧ programString (runParser 100 toksBangNegA).1 = "(!(-a))"
    ∧ programString (runParser 100 toksSumProd).1 = "(((a + (b / c)) + (d * e)) - f)"
    ∧ programString (runParser 100 toksEqMix).1 = "((3 + (4 * 5)) == ((3 * 1) + (4 * 5)))"
    ∧ programString (runParser 100 toksCallMix).1 = "(a + (add((b + c)) * d))"
    ∧ (runParser 100 toksNegAMulB).2.errors = []
    ∧ (runParser 100 toksBangNegA).2.errors = []
    ∧ (runParser 100 toksSumProd).2.errors = []
    ∧ (runParser 100 toksEqMix).2.errors = []
    ∧ (runParser 100 toksCallMix).2.errors = [] := by
  refine ⟨rfl, rfl, rfl, rfl, rfl, rfl, rfl, rfl, rfl, rfl⟩

/-! ## Claim C3 -/

theorem envSet_get_self {st : State} {ref : Nat} {ed : EnvData} (h : st.get? ref = some ed)
    (name : String) (v : Option Obj) :
    (envSet st ref name v).get? ref = some ⟨bindingsSet ed.bindings name v, ed.parent⟩ := by
  unfold envSet
  rw [h]
  have hlt : ref < st.length := by
    by_contra hge
    rw [List.get?_eq_none.mpr (Nat.le_of_not_lt hge)] at h
    exact Option.noConfusion h
  rw [List.get?_set_eq, List.get?_eq_get hlt]
  simp

theorem bindParameters_parent {fnEnv : Nat} :
    ∀ (parameters : List String) (args : List (Option Obj)) (ref : Nat) (st st' : State)
      (bs0 : List (String × Option Obj)),
      bindParameters parameters args ref st = some st' →
      st.get? ref = some ⟨bs0, some fnEnv⟩ →
      ∃ bs, st'.get? ref = some ⟨bs, some fnEnv⟩ := by
  intro parameters
  induction parameters with
  | nil =>
    intro args ref st st' bs0 h hget
    cases args with
    | nil => simp only [bindParameters] at h; cases h; exact ⟨bs0, hget⟩
    | cons a as' => simp only [bindParameters] at h; cases h; exact ⟨bs0, hget⟩
  | cons p ps ih =>
    intro args ref st st' bs0 h hget
    cases args with
    | nil => exact absurd h (by simp [bindParameters])
    | cons a as' =>
      simp only [bindParameters] at h
      exact ih as' ref (envSet st ref p a) st' (bindingsSet bs0 p a) h
        (envSet_get_self hget p a)

/-- C3: a function literal evaluates to a Function value capturing the
environment current at the literal; application binds the parameters in
a freshly created environment whose parent is the function's captured
environment (not the caller's, which applyFunction is never given), and
evaluates the body there, unwrapping one ReturnValue; the adder program
evaluates to the Integer 5. -/
theorem claim_C3_closures :
    (∀ fuel parameters body env st,
      evalExpr (fuel + 1) (.fnE parameters body) env st =
        (.ok (.function parameters body env), st))
    ∧ (∀ parameters args fnEnv st ref st',
      extendFunctionEnv parameters args fnEnv st = some (ref, st') →
      ref = st.length ∧ ∃ bs, st'.get? ref = some ⟨bs, some fnEnv⟩)
    ∧ (∀ fuel parameters body fnEnv args st closure st₁,
      extendFunctionEnv parameters args fnEnv st = some (closure, st₁) →
      applyFunction (fuel + 1) (some (.function parameters body fnEnv)) args st =
        (unwrapReturnValue (evalBlockStatement fuel body closure st₁ .goNil).1,
         (evalBlockStatement fuel body closure st₁ .goNil).2))
    ∧ (runProgram 50 adderProgram).1 = .ok (.integer 5) := by
  refine ⟨fun _ _ _ _ _ => rfl, ?_, ?_, rfl⟩
  · intro parameters args fnEnv st ref st' h
    unfold extendFunctionEnv newEnclosedEnvironment at h
    simp only at h
    cases hbind : bindParameters parameters args st.length (st ++ [⟨[], some fnEnv⟩]) with
    | none => rw [hbind] at h; exact Option.noConfusion h
    | some st'' =>
      rw [hbind] at h
      have h1 : st.length = ref := congrArg Prod.fst (Option.some.inj h)
      have h2 : st'' = st' := congrArg Prod.snd (Option.some.inj h)
      subst h1
      subst h2
      refine ⟨rfl, ?_⟩
      exact bindParameters_parent parameters args st.length (st ++ [⟨[], some fnEnv⟩]) st'' []
        hbind (List.get?_concat_length _ _)
  · intro fuel parameters body fnEnv args st closure st₁ h
    simp only [applyFunction, h]

/-- Witness for claim C3. -/
theorem claim_C3_closures_witness :
    extendFunctionEnv ["x"] [some (.integer 2)] 0 [⟨[], none⟩] =
      some (1, [⟨[], none⟩, ⟨[("x", some (.integer 2))], some 0⟩])
    ∧ (1 = ([] : State).length + 1)
    ∧ applyFunction 5 (some (.function [] [.exprS (iL 7)] 0)) [] [⟨[], none⟩] =
      (.ok (.integer 7), [⟨[], none⟩, ⟨[], some 0⟩]) := by
  refine ⟨?_, rfl, ?_⟩
  · rfl
  · have h := claim_C3_closures.2.2.1 4 [] [.exprS (iL 7)] 0 [] [⟨[], none⟩]
      1 [⟨[], none⟩, ⟨[], some 0⟩] (by rfl)
    rw [h]
    rfl

/-! ## Claim C10 -/

/-- C10: a let statement evaluates to the value it binds; when the
preceding statements complete normally and the final statement's value
expression evaluates to a plain value (not an Error and not a
ReturnValue control signal), the program evaluates to that value, with
the name bound to it. -/
theorem claim_C10_let_result :
    ∀ env fuel pre st acc f' st₁ acc' name e v st₂,
    StmtsRun env fuel pre st acc (f' + 3) st₁ acc' →
    evalExpr f' e env st₁ = (.ok v, st₂) →
    objType v ≠ "ERROR" →
    objType v ≠ "RETURN_VALUE" →
    evalProgram fuel (pre ++ [.letS name e]) env st acc =
      (.ok v, envSet st₂ env name (some v)) := by
  intro env fuel pre st acc f' st₁ acc' name e v st₂ hrun hexpr herr hrv
  rw [evalProgram_append hrun [Stmt.letS name e]]
  have hval : isErrorR (.ok v) = false := by
    simp only [isErrorR, Res.toOpt, isErrorO, decide_eq_false_iff_not]
    exact herr
  have hstmt : evalStmt (f' + 2) (Stmt.letS name e) env st₁ =
      (.ok v, envSet st₂ env name (some v)) := by
    show evalLetStatement (f' + 1) name e env st₁ = _
    rw [evalLetStatement]
    simp only [hexpr, seqRes, hval]
    rfl
  rw [evalProgram, hstmt]
  simp only [seqRes]
  cases v with
  | returnValue w => exact absurd rfl hrv
  | error m => exact absurd rfl herr
  | integer w => rfl
  | boolean w => rfl
  | null => rfl
  | str w => rfl
  | array es => rfl
  | hash ps => rfl
  | function a b c => rfl
  | builtin n => rfl

/-- Witness for claim C10: the program (let a = 5;) returns the bound 5. -/
theorem claim_C10_let_result_witness :
    evalProgram 4 ([] ++ [Stmt.letS "a" (iL 5)]) 0 [⟨[], none⟩] .goNil =
      (.ok (.integer 5), [⟨[("a", some (.integer 5))], none⟩]) := by
  have h := claim_C10_let_result 0 4 [] [⟨[], none⟩] .goNil 1 [⟨[], none⟩] .goNil "a" (iL 5)
    (.integer 5) [⟨[], none⟩] (StmtsRun.nil 4 [⟨[], none⟩] .goNil) (by rfl)
    (by simp [objType]) (by simp [objType])
  rw [h]
  rfl

/-! ## Claim C5 -/

/-- [3, 4][3] -/
def c5oobProgram : List Stmt := [.exprS (.indexE (.arrayE [iL 3, iL 4]) (iL 3))]

/-- [1][-1] -/
def c5negProgram : List Stmt :=
  [.exprS (.indexE (.arrayE [iL 1]) (.prefixE "-" (iL 1)))]

/-- \x7b1: true\x7d[2] -/
def c5missProgram : List Stmt :=
  [.exprS (.indexE (.hashE [(iL 1, .boolLit "true" true)]) (iL 2))]

/-- [1, 2, 3][1] -/
def c5inRangeProgram : List Stmt :=
  [.exprS (.indexE (.arrayE [iL 1, iL 2, iL 3]) (iL 1))]

/-- \x7b1: true\x7d[1] -/
def c5hashHitProgram : List Stmt :=
  [.exprS (.indexE (.hashE [(iL 1, .boolLit "true" true)]) (iL 1))]

/-- Counterexample for claim C5: the out-of-range error message begins
with a capital letter, unlike the claimed shape, and indexing a Hash
with an absent key yields the host's nil interface value, not the NULL
singleton. -/
theorem claim_C5_counterexample :
    (runProgram 50 c5oobProgram).1 =
      .ok (.error "Index is larger than the max. index=3, max=1")
    ∧ ("index is larger than the max. index=".data.isPrefixOf
        "Index is larger than the max. index=3, max=1".data) = false
    ∧ (runProgram 50 c5missProgram).1 = .goNil
    ∧ (runProgram 50 c5missProgram).1 ≠ .ok .null := by
  refine ⟨rfl, by decide, rfl, ?_⟩
  intro h
  rw [show (runProgram 50 c5missProgram).1 = .goNil from rfl] at h
  exact Res.noConfusion h

/-- C5 as amended: indexing an Array with Integer index i yields the
capitalised "Cannot index with a negative number i" error when i is
negative, the capitalised "Index is larger than the max. index=I,
max=M" error when i is at least the length, and the i-th element
otherwise; indexing a Hash with a hashable key yields the stored value,
or Go's nil (not the NULL singleton) when the key is absent. -/
theorem claim_C5_index_semantics :
    (∀ fuel tgt idx env st st₁ st₂ elems (i : Int),
      evalExpr fuel tgt env st = (.ok (.array elems), st₁) →
      evalExpr fuel idx env st₁ = (.ok (.integer i), st₂) →
      evalExpr (fuel + 1) (.indexE tgt idx) env st =
        (if i < 0 then
           .ok (.error ("Cannot index with a negative number " ++ toString i))
         else if (elems.length : Int) ≤ i then
           .ok (.error ("Index is larger than the max. index=" ++ (toString i ++ (", max=" ++
             toString ((elems.length : Int) - 1)))))
         else Res.ofOpt (elems.getD i.toNat none), st₂))
    ∧ (∀ fuel tgt idx env st st₁ st₂ ps ko k,
      evalExpr fuel tgt env st = (.ok (.hash ps), st₁) →
      evalExpr fuel idx env st₁ = (.ok ko, st₂) →
      hashKeyOf ko = some k →
      evalExpr (fuel + 1) (.indexE tgt idx) env st =
        ((match hashLookup ps k with
          | some (_, v) => Res.ofOpt v
          | none => .goNil), st₂))
    ∧ (runProgram 50 c5inRangeProgram).1 = .ok (.integer 2)
    ∧ (runProgram 50 c5negProgram).1 =
      .ok (.error "Cannot index with a negative number -1")
    ∧ (runProgram 50 c5hashHitProgram).1 = .ok (.boolean true) := by
  refine ⟨?_, ?_, rfl, rfl, rfl⟩
  · intro fuel tgt idx env st st₁ st₂ elems i htgt hidx
    simp only [evalExpr, htgt, seqRes, hidx, Res.toOpt]
    split
    · rfl
    · split <;> rfl
  · intro fuel tgt idx env st st₁ st₂ ps ko k htgt hidx hk
    simp only [evalExpr, htgt, seqRes, hidx, Res.toOpt, hk]
    cases hashLookup ps k with
    | none => rfl
    | some p => rfl

/-- Witness for claim C5: the general conjuncts applied to the literal
array [7] at index 0 and to the literal hash at its own key. -/
theorem claim_C5_index_semantics_witness :
    evalExpr 4 (.indexE (.arrayE [iL 7]) (iL 0)) 0 [⟨[], none⟩] =
      (.ok (.integer 7), [⟨[], none⟩])
    ∧ evalExpr 4 (.indexE (.hashE [(iL 1, iL 9)]) (iL 1)) 0 [⟨[], none⟩] =
      (.ok (.integer 9), [⟨[], none⟩]) := by
  constructor
  · have h := claim_C5_index_semantics.1 3 (.arrayE [iL 7]) (iL 0) 0 [⟨[], none⟩]
      [⟨[], none⟩] [⟨[], none⟩] [some (.integer 7)] 0 (by rfl) (by rfl)
    rw [h]
    rfl
  · have h := claim_C5_index_semantics.2.1 3 (.hashE [(iL 1, iL 9)]) (iL 1) 0 [⟨[], none⟩]
      [⟨[], none⟩] [⟨[], none⟩] [(.intK 1, .integer 1, some (.integer 9))] (.integer 1)
      (.intK 1) (by rfl) (by rfl) (by rfl)
    rw [h]
    rfl

/-! ## Claim C6 -/

/-- \x7b1: -true\x7d -/
def c6errValProgram : List Stmt :=
  [.exprS (.hashE [(iL 1, .prefixE "-" (.boolLit "true" true))])]

/-- Counterexample for claim C6: evaluating the value -true inside a
hash literal yields an Error, yet the hash literal still evaluates to a
Hash value, which contains that Error; the Error is not propagated. -/
theorem claim_C6_counterexample :
    (runProgram 50 c6errValProgram).1 =
      .ok (.hash [(.intK 1, .integer 1, some (.error "unkown operator: -BOOLEAN"))])
    ∧ (runProgram 50 c6errValProgram).1 ≠ .ok (.error "unkown operator: -BOOLEAN") := by
  refine ⟨rfl, ?_⟩
  intro h
  rw [show (runProgram 50 c6errValProgram).1 =
    .ok (.hash [(.intK 1, .integer 1, some (.error "unkown operator: -BOOLEAN"))]) from rfl] at h
  exact Obj.noConfusion (Res.ok.inj h)

/-- C6 as amended: pairs are processed one by one with the value
evaluated before the key; an Error produced by a value expression is
stored in the Hash as the pair's value (not propagated); an evaluated
key that is not hashable (including an Error object) yields the
capitalised "Cannot use as key T" error; for duplicate keys the pair
processed last wins (the AST pairs live in a Go map, so the processing
order is the map's iteration order). -/
theorem claim_C6_hash_literal_semantics :
    (∀ fuel k v rest env st acc st₁ st₂ vv ko,
      evalExpr fuel v env st = (vv, st₁) →
      vv.abnormal = false →
      evalExpr fuel k env st₁ = (.ok ko, st₂) →
      hashKeyOf ko = none →
      evalHashPairs (fuel + 1) ((k, v) :: rest) env st acc =
        (.ok (.error ("Cannot use as key " ++ objType ko)), st₂))
    ∧ (∀ fuel k v rest env st acc st₁ st₂ m ko hk,
      evalExpr fuel v env st = (.ok (.error m), st₁) →
      evalExpr fuel k env st₁ = (.ok ko, st₂) →
      hashKeyOf ko = some hk →
      evalHashPairs (fuel + 1) ((k, v) :: rest) env st acc =
        evalHashPairs fuel rest env st₂ (hashInsert acc hk ko (some (.error m))))
    ∧ (∀ (n m₁ m₂ : Int) fuel env st,
      evalExpr (fuel + 4) (.hashE [(iL n, iL m₁), (iL n, iL m₂)]) env st =
        (.ok (.hash [(.intK n, .integer n, some (.integer m₂))]), st)) := by
  refine ⟨?_, ?_, ?_⟩
  · intro fuel k v rest env st acc st₁ st₂ vv ko hv habn hk hkey
    cases vv with
    | hostAbort => exact absurd habn (by simp [Res.abnormal])
    | outOfFuel => exact absurd habn (by simp [Res.abnormal])
    | ok o => simp only [evalHashPairs, hv, seqRes, hk, Res.toOpt, hkey, newError]
    | goNil => simp only [evalHashPairs, hv, seqRes, hk, Res.toOpt, hkey, newError]
  · intro fuel k v rest env st acc st₁ st₂ m ko hk hv hkeval hkeysome
    simp only [evalHashPairs, hv, seqRes, hkeval, Res.toOpt, hkeysome]
  · intro n m₁ m₂ fuel env st
    simp only [evalHashPairs, evalExpr, iL, seqRes, Res.toOpt, hashKeyOf, hashInsert,
      if_pos, hashLookup]

/-- Witness for claim C6: the general conjuncts at concrete inputs: a
function-typed key, an Error value under an Integer key, duplicated
Integer keys. -/
theorem claim_C6_hash_literal_semantics_witness :
    evalHashPairs 2 [(Expr.fnE [] [], iL 1)] 0 [⟨[], none⟩] [] =
      (.ok (.error "Cannot use as key FUNCTION"), [⟨[], none⟩])
    ∧ evalHashPairs 3 [(iL 1, .prefixE "-" (.boolLit "true" true))] 0 [⟨[], none⟩] [] =
      (.ok (.hash [(.intK 1, .integer 1, some (.error "unkown operator: -BOOLEAN"))]),
        [⟨[], none⟩])
    ∧ evalExpr 4 (.hashE [(iL 5, iL 1), (iL 5, iL 2)]) 0 [⟨[], none⟩] =
      (.ok (.hash [(.intK 5, .integer 5, some (.integer 2))]), [⟨[], none⟩]) := by
  refine ⟨?_, ?_, ?_⟩
  · exact claim_C6_hash_literal_semantics.1 1 (Expr.fnE [] []) (iL 1) [] 0 [⟨[], none⟩] []
      [⟨[], none⟩] [⟨[], none⟩] (.ok (.integer 1)) (.function [] [] 0)
      (by rfl) (by rfl) (by rfl) (by rfl)
  · have h := claim_C6_hash_literal_semantics.2.1 2 (iL 1)
      (.prefixE "-" (.boolLit "true" true)) [] 0 [⟨[], none⟩] [] [⟨[], none⟩] [⟨[], none⟩]
      "unkown operator: -BOOLEAN" (.integer 1) (.intK 1) (by rfl) (by rfl) (by rfl)
    rw [h]
    rfl
  · exact claim_C6_hash_literal_semantics.2.2 5 1 2 0 0 [⟨[], none⟩]

/-! ## Claim C8 -/

/-- let f = fn(x, y) \x7b x; \x7d; f(1) -/
def c8panicProgram : List Stmt :=
  [.letS "f" (.fnE ["x", "y"] [.exprS (.ident "x")]),
   .exprS (.callE (.ident "f") [iL 1])]

/-- len("one", "two") -/
def c8builtinProgram : List Stmt :=
  [.exprS (.callE (.ident "len") [.strLit "one", .strLit "two"])]

/-- Counterexample for claim C8: calling a two-parameter function with
one argument does not proceed to a later identifier lookup failure; it
aborts the host process at argument binding (slice index out of
range). -/
theorem claim_C8_counterexample :
    (runProgram 50 c8panicProgram).1 = .hostAbort
    ∧ (runProgram 50 c8panicProgram).1 ≠ .ok (.error "identifier not found: y") := by
  refine ⟨rfl, ?_⟩
  intro h
  rw [show (runProgram 50 c8panicProgram).1 = .hostAbort from rfl] at h
  exact Res.noConfusion h

theorem bindParameters_short :
    ∀ (parameters : List String) (args : List (Option Obj)) (ref : Nat) (st : State),
      args.length < parameters.length →
      bindParameters parameters args ref st = none := by
  intro parameters
  induction parameters with
  | nil => intro args ref st h; exact absurd h (Nat.not_lt_zero _)
  | cons p ps ih =>
    intro args ref st h
    cases args with
    | nil => rfl
    | cons a as' =>
      simp only [bindParameters]
      exact ih as' ref (envSet st ref p a) (Nat.lt_of_succ_lt_succ h)

theorem bindParameters_enough :
    ∀ (parameters : List String) (args : List (Option Obj)) (ref : Nat) (st : State),
      parameters.length ≤ args.length →
      ∃ st', bindParameters parameters args ref st = some st' := by
  intro parameters
  induction parameters with
  | nil =>
    intro args ref st _
    cases args with
    | nil => exact ⟨st, rfl⟩
    | cons a as' => exact ⟨st, rfl⟩
  | cons p ps ih =>
    intro args ref st h
    cases args with
    | nil => exact absurd h (by simp)
    | cons a as' =>
      simp only [bindParameters]
      exact ih as' ref (envSet st ref p a) (Nat.le_of_succ_le_succ h)

/-- C8 as amended: calling a user function with fewer arguments than
parameters aborts the host process at argument binding in
extendFunctionEnv (a slice index out of range), rather than failing
later with identifier not found; with enough arguments the binding
succeeds and application proceeds; builtins check their own arity and
return the "wrong number of arguments. expected=N got=M" error. -/
theorem claim_C8_arity :
    (∀ parameters args fnEnv (st : State), args.length < parameters.length →
      extendFunctionEnv parameters args fnEnv st = none)
    ∧ (∀ parameters args fnEnv (st : State), parameters.length ≤ args.length →
      ∃ st', extendFunctionEnv parameters args fnEnv st = some (st.length, st'))
    ∧ (∀ args, args.length ≠ 1 →
      applyBuiltin "len" args =
        .ok (.error ("wrong number of arguments. expected=1 got=" ++ toString args.length)))
    ∧ (runProgram 50 c8panicProgram).1 = .hostAbort
    ∧ (runProgram 50 c8builtinProgram).1 =
      .ok (.error "wrong number of arguments. expected=1 got=2") := by
  refine ⟨?_, ?_, ?_, rfl, rfl⟩
  · intro parameters args fnEnv st h
    unfold extendFunctionEnv newEnclosedEnvironment
    simp only
    rw [bindParameters_short parameters args st.length _ h]
  · intro parameters args fnEnv st h
    unfold extendFunctionEnv newEnclosedEnvironment
    simp only
    obtain ⟨st', hst'⟩ := bindParameters_enough parameters args st.length
      (st ++ [⟨[], some fnEnv⟩]) h
    exact ⟨st', by rw [hst']⟩
  · intro args h
    have h0 : applyBuiltin "len" args = builtinLen args := rfl
    rw [h0]
    simp only [builtinLen]
    rw [if_pos h]
    rfl

/-- Witness for claim C8. -/
theorem claim_C8_arity_witness :
    (∃ st', extendFunctionEnv ["x"] [some (.integer 1)] 0 [⟨[], none⟩] =
      some (([⟨[], none⟩] : State).length, st'))
    ∧ extendFunctionEnv ["x", "y"] [some (.integer 1)] 0 [⟨[], none⟩] = none
    ∧ applyBuiltin "len" [] =
      .ok (.error "wrong number of arguments. expected=1 got=0") := by
  refine ⟨claim_C8_arity.2.1 ["x"] [some (.integer 1)] 0 [⟨[], none⟩] (by decide),
    claim_C8_arity.1 ["x", "y"] [some (.integer 1)] 0 [⟨[], none⟩] (by decide),
    claim_C8_arity.2.2.1 [] (by decide)⟩

/-! ## Claim C9 -/

/-- Tokens of (let x 5;). -/
def letX5Toks : List Token :=
  [⟨.LET, "let"⟩, ⟨.IDENT, "x"⟩, ⟨.INT, "5"⟩, ⟨.SEMICOLON, ";"⟩]

/-- Tokens of (let x;). -/
def letXSemiToks : List Token :=
  [⟨.LET, "let"⟩, ⟨.IDENT, "x"⟩, ⟨.SEMICOLON, ";"⟩]

/-- Counterexample for claim C9: for (let x 5;) the parser records a
diagnostic but does NOT skip the statement: it produces the Let node
binding x to 5; and for (let x;) the parser skips the statement but
records NO diagnostic. -/
theorem claim_C9_counterexample :
    (runParser 50 letX5Toks).1 = [.letS "x" (.intLit "5" 5)]
    ∧ (runParser 50 letX5Toks).2.errors = ["unexpected next token expected== got=INT"]
    ∧ (runParser 50 letXSemiToks).1 = []
    ∧ (runParser 50 letXSemiToks).2.errors = [] := by
  exact ⟨rfl, rfl, rfl, rfl⟩

/-- C9 as amended: a let statement with a missing = after the
identifier records a diagnostic but still yields the Let node when the
remainder parses as (let x 5;) does, while the form (let x;) is
silently discarded with no diagnostic (the source bug the spec flags);
the REPL (modelled from the spec) does not evaluate an input whose
parse-error list is non-empty. -/
theorem claim_C9_let_parse_behaviour :
    (runParser 50 letX5Toks).1 = [.letS "x" (.intLit "5" 5)]
    ∧ (runParser 50 letX5Toks).2.errors.length = 1
    ∧ replRun 50 letX5Toks = none
    ∧ (runParser 50 letXSemiToks).1 = []
    ∧ (runParser 50 letXSemiToks).2.errors = []
    ∧ (∀ fuel toks, (runParser fuel toks).2.errors.isEmpty = false →
        replRun fuel toks = none) := by
  refine ⟨rfl, rfl, rfl, rfl, rfl, ?_⟩
  intro fuel toks h
  rcases hrp : runParser fuel toks with ⟨prog, p⟩
  rw [hrp] at h
  simp only [replRun, hrp]
  simp only at h
  simp [h]

/-- Witness for claim C9: the REPL short-circuit at the concrete
erroneous input (let x 5;). -/
theorem claim_C9_let_parse_behaviour_witness :
    (runParser 50 letX5Toks).2.errors.isEmpty = false ∧ replRun 50 letX5Toks = none := by
  exact ⟨rfl, claim_C9_let_parse_behaviour.2.2.2.2.2 50 letX5Toks rfl⟩

/-! ## Claim C4: error message shapes

`specShapeOK` follows the spec's words (section 7): the message shapes
the claim asserts, as prefixes.  `codeShapeOK` is the set of prefixes
the code's newError call sites actually produce (note the "unkown"
spelling and the capitalised container messages, as also matched by the
test suite). -/

def specShapePrefixes : List String :=
  ["unknown operator: ", "type mismatch: ", "identifier not found: ",
   "cannot use as key ", "cannot use as index ", "cannot index type ",
   "cannot index with a negative number ", "index is larger than the max. index=",
   "wrong number of arguments. expected=", "argument to `", "not a function: "]

def specShapeOK (m : String) : Bool :=
  specShapePrefixes.any fun p => p.data.isPrefixOf m.data

def codeShapePrefixes : List String :=
  ["unkown operator: ", "type mismatch: ", "identifier not found: ",
   "Cannot use as key ", "Cannot use as index ", "Cannot index type ",
   "Cannot index with a negative number ", "Index is larger than the max. index=",
   "wrong number of arguments. expected=", "argument to `", "not a function: "]

def codeShapeOK (m : String) : Bool :=
  codeShapePrefixes.any fun p => p.data.isPrefixOf m.data

/-! objShapesOK: all error messages stored anywhere inside an object
have a code shape (Errors can sit inside Hash values, Arrays and
ReturnValue wrappers). -/
mutual
def objShapesOK : Obj → Bool
  | .error m => codeShapeOK m
  | .array elements => optListShapesOK elements
  | .hash pairs => hashPairsShapesOK pairs
  | .returnValue v => optShapesOK v
  | _ => true

def optShapesOK : Option Obj → Bool
  | none => true
  | some o => objShapesOK o

def optListShapesOK : List (Option Obj) → Bool
  | [] => true
  | v :: rest => optShapesOK v && optListShapesOK rest

def hashPairsShapesOK : List (HashKey × Obj × Option Obj) → Bool
  | [] => true
  | (_, ko, v) :: rest => objShapesOK ko && optShapesOK v && hashPairsShapesOK rest
end

def resShapesOK : Res → Bool
  | .ok o => objShapesOK o
  | _ => true

def listResShapesOK : Except Res (List (Option Obj)) → Bool
  | .error r => resShapesOK r
  | .ok l => optListShapesOK l

def bindingsShapesOK : List (String × Option Obj) → Bool
  | [] => true
  | (_, v) :: rest => optShapesOK v && bindingsShapesOK rest

def stateShapesOK : State → Bool
  | [] => true
  | ed :: rest => bindingsShapesOK ed.bindings && stateShapesOK rest

theorem isPrefixOf_self_append {α : Type} [BEq α] [LawfulBEq α] :
    ∀ (l t : List α), l.isPrefixOf (l ++ t) = true := by
  intro l
  induction l with
  | nil => intro t; simp [List.isPrefixOf]
  | cons a l ih => intro t; simp [List.isPrefixOf, ih t]

theorem isPrefixOf_trans {α : Type} [BEq α] [LawfulBEq α] :
    ∀ (p l t : List α), p.isPrefixOf l = true → p.isPrefixOf (l ++ t) = true := by
  intro p
  induction p with
  | nil => intro l t _; simp [List.isPrefixOf]
  | cons a p ih =>
    intro l t h
    cases l with
    | nil => exact absurd h (by simp [List.isPrefixOf])
    | cons b l' =>
      simp only [List.isPrefixOf, List.cons_append, Bool.and_eq_true] at h ⊢
      exact ⟨h.1, ih l' t h.2⟩

/-- A string whose shape is accepted keeps an accepted shape when a
suffix is appended. -/
theorem codeShapeOK_append (lit suffix : String) (h : codeShapeOK lit = true) :
    codeShapeOK (lit ++ suffix) = true := by
  simp only [codeShapeOK, List.any_eq_true] at h ⊢
  obtain ⟨p, hmem, hpre⟩ := h
  refine ⟨p, hmem, ?_⟩
  rw [show (lit ++ suffix).data = lit.data ++ suffix.data from rfl]
  exact isPrefixOf_trans p.data lit.data suffix.data hpre

theorem resShapesOK_toOpt {r : Res} (h : resShapesOK r = true) :
    optShapesOK r.toOpt = true := by
  cases r <;> simp_all [resShapesOK, Res.toOpt, optShapesOK]

theorem optShapesOK_ofOpt {v : Option Obj} (h : optShapesOK v = true) :
    resShapesOK (Res.ofOpt v) = true := by
  cases v <;> simp_all [resShapesOK, Res.ofOpt, optShapesOK]

theorem unwrapReturnValue_shapes {r : Res} (h : resShapesOK r = true) :
    resShapesOK (unwrapReturnValue r) = true := by
  cases r with
  | ok o =>
    cases o with
    | returnValue v =>
      simp only [resShapesOK, objShapesOK] at h
      exact optShapesOK_ofOpt h
    | _ => exact h
  | _ => exact h

theorem bindingsGet_shapes :
    ∀ {bs : List (String × Option Obj)} {name : String} {v : Option Obj},
      bindingsShapesOK bs = true → bindingsGet bs name = some v → optShapesOK v = true := by
  intro bs
  induction bs with
  | nil => intro name v _ hg; exact absurd hg (by simp [bindingsGet])
  | cons b rest ih =>
    intro name v hok hg
    obtain ⟨n, w⟩ := b
    simp only [bindingsShapesOK, Bool.and_eq_true] at hok
    simp only [bindingsGet] at hg
    by_cases hn : n = name
    · rw [if_pos hn] at hg
      cases hg
      exact hok.1
    · rw [if_neg hn] at hg
      exact ih hok.2 hg

theorem stateShapesOK_get :
    ∀ {st : State} {ref : Nat} {ed : EnvData},
      stateShapesOK st = true → st.get? ref = some ed → bindingsShapesOK ed.bindings = true := by
  intro st
  induction st with
  | nil => intro ref ed _ hg; exact absurd hg (by simp)
  | cons e rest ih =>
    intro ref ed hok hg
    simp only [stateShapesOK, Bool.and_eq_true] at hok
    cases ref with
    | zero => cases hg; exact hok.1
    | succ r => exact ih hok.2 hg

theorem envGetAux_shapes :
    ∀ (fuel : Nat) {st : State} {ref : Nat} {name : String} {v : Option Obj},
      stateShapesOK st = true → envGetAux fuel st ref name = some v → optShapesOK v = true := by
  intro fuel
  induction fuel with
  | zero => intro st ref name v _ hg; exact absurd hg (by simp [envGetAux])
  | succ f ih =>
    intro st ref name v hok hg
    simp only [envGetAux] at hg
    cases hget : st.get? ref with
    | none => rw [hget] at hg; exact absurd hg (by simp)
    | some ed =>
      rw [hget] at hg
      simp only at hg
      cases hb : bindingsGet ed.bindings name with
      | some w =>
        rw [hb] at hg
        cases hg
        exact bindingsGet_shapes (stateShapesOK_get hok hget) hb
      | none =>
        rw [hb] at hg
        cases hp : ed.parent with
        | none => rw [hp] at hg; exact absurd hg (by simp)
        | some p => rw [hp] at hg; exact ih hok hg

theorem resShapesOK_error {m : String} (h : codeShapeOK m = true) :
    resShapesOK (.ok (newError m)) = true := by
  simp only [resShapesOK, newError, objShapesOK]
  exact h

theorem resShapesOK_atom_integer (v : Int) : resShapesOK (.ok (.integer v)) = true := by
  simp [resShapesOK, objShapesOK]

theorem resShapesOK_atom_boolean (v : Bool) : resShapesOK (.ok (.boolean v)) = true := by
  simp [resShapesOK, objShapesOK]

theorem resShapesOK_atom_null : resShapesOK (.ok .null) = true := by
  simp [resShapesOK, objShapesOK]

theorem resShapesOK_atom_str (v : String) : resShapesOK (.ok (.str v)) = true := by
  simp [resShapesOK, objShapesOK]

theorem resShapesOK_atom_builtin (v : String) : resShapesOK (.ok (.builtin v)) = true := by
  simp [resShapesOK, objShapesOK]

theorem evalIdentifier_shapes {name : String} {env : Nat} {st : State}
    (hok : stateShapesOK st = true) : resShapesOK (evalIdentifier name env st) = true := by
  unfold evalIdentifier envGet
  cases hg : envGetAux (st.length + 1) st env name with
  | some v =>
    simp only [hg]
    exact optShapesOK_ofOpt (envGetAux_shapes _ hok hg)
  | none =>
    simp only [hg]
    split
    · exact resShapesOK_atom_builtin name
    · exact resShapesOK_error (codeShapeOK_append "identifier not found: " name (by decide))

theorem evalBang_shapes (right : Option Obj) :
    resShapesOK (.ok (evalBangOperatorExpression right)) = true := by
  unfold evalBangOperatorExpression
  split <;> exact resShapesOK_atom_boolean _

theorem evalMinus_shapes (right : Option Obj) :
    resShapesOK (evalMinusOperatorExpression right) = true := by
  unfold evalMinusOperatorExpression
  match right with
  | none => rfl
  | some (.integer v) => exact resShapesOK_atom_integer _
  | some (.boolean v) => exact resShapesOK_error (codeShapeOK_append "unkown operator: " _ (by decide))
  | some .null => exact resShapesOK_error (codeShapeOK_append "unkown operator: " _ (by decide))
  | some (.str v) => exact resShapesOK_error (codeShapeOK_append "unkown operator: " _ (by decide))
  | some (.array v) => exact resShapesOK_error (codeShapeOK_append "unkown operator: " _ (by decide))
  | some (.hash v) => exact resShapesOK_error (codeShapeOK_append "unkown operator: " _ (by decide))
  | some (.function a b c) =>
    exact resShapesOK_error (codeShapeOK_append "unkown operator: " _ (by decide))
  | some (.builtin v) => exact resShapesOK_error (codeShapeOK_append "unkown operator: " _ (by decide))
  | some (.returnValue v) =>
    exact resShapesOK_error (codeShapeOK_append "unkown operator: " _ (by decide))
  | some (.error m) => exact resShapesOK_error (codeShapeOK_append "unkown operator: " _ (by decide))

theorem evalPrefixExpression_shapes (operator : String) (right : Option Obj) :
    resShapesOK (evalPrefixExpression operator right) = true := by
  unfold evalPrefixExpression
  split
  · exact evalBang_shapes right
  · split
    · exact evalMinus_shapes right
    · cases right with
      | none => rfl
      | some o => exact resShapesOK_error (codeShapeOK_append "unkown operator: " _ (by decide))

theorem evalIntegerInfixOperator_shapes (l : Int) (operator : String) (r : Int) :
    resShapesOK (evalIntegerInfixOperator l operator r) = true := by
  unfold evalIntegerInfixOperator
  split
  · exact resShapesOK_atom_integer _
  · split
    · exact resShapesOK_atom_integer _
    · split
      · exact resShapesOK_atom_integer _
      · split
        · split
          · rfl
          · exact resShapesOK_atom_integer _
        · split
          · exact resShapesOK_atom_boolean _
          · split
            · exact resShapesOK_atom_boolean _
            · split
              · exact resShapesOK_atom_boolean _
              · split
                · exact resShapesOK_atom_boolean _
                · exact resShapesOK_error (codeShapeOK_append "unkown operator: " _ (by decide))

theorem evalInfixTail_shapes (l : Option Obj) (operator : String) (r : Option Obj) :
    resShapesOK (evalInfixTail l operator r) = true := by
  unfold evalInfixTail
  split
  · exact resShapesOK_atom_boolean _
  · split
    · exact resShapesOK_atom_boolean _
    · cases l with
      | none => cases r <;> rfl
      | some l' =>
        cases r with
        | none => rfl
        | some r' =>
          split
          · rfl
          · rfl
          · split
            · exact resShapesOK_error (codeShapeOK_append "type mismatch: " _ (by decide))
            · exact resShapesOK_error (codeShapeOK_append "unkown operator: " _ (by decide))

theorem evalInfixExpression_shapes (l : Option Obj) (operator : String) (r : Option Obj) :
    resShapesOK (evalInfixExpression l operator r) = true := by
  unfold evalInfixExpression
  match r with
  | none => rfl
  | some r' =>
    simp only
    split
    · match l with
      | none => rfl
      | some l' =>
        simp only
        split
        · exact evalIntegerInfixOperator_shapes _ _ _
        · exact evalInfixTail_shapes _ _ _
    · split
      · match l with
        | none => rfl
        | some l' =>
          simp only
          split
          · split
            · exact resShapesOK_atom_str _
            · exact resShapesOK_error (codeShapeOK_append "unkown operator: " _ (by decide))
          · exact evalInfixTail_shapes _ _ _
      · exact evalInfixTail_shapes _ _ _

theorem optListShapesOK_append {l₁ l₂ : List (Option Obj)} (h₁ : optListShapesOK l₁ = true)
    (h₂ : optListShapesOK l₂ = true) : optListShapesOK (l₁ ++ l₂) = true := by
  induction l₁ with
  | nil => exact h₂
  | cons v rest ih =>
    simp only [optListShapesOK, Bool.and_eq_true] at h₁ ⊢
    exact ⟨h₁.1, ih h₁.2⟩

theorem optListShapesOK_getD :
    ∀ {l : List (Option Obj)} (n : Nat), optListShapesOK l = true →
      optShapesOK (l.getD n none) = true := by
  intro l
  induction l with
  | nil => intro n _; cases n <;> rfl
  | cons v rest ih =>
    intro n h
    simp only [optListShapesOK, Bool.and_eq_true] at h
    cases n with
    | zero => simpa [List.getD] using h.1
    | succ m => simpa [List.getD] using ih m h.2

theorem optListShapesOK_tail {l : List (Option Obj)} (h : optListShapesOK l = true) :
    optListShapesOK l.tail = true := by
  cases l with
  | nil => exact h
  | cons v rest => simp only [optListShapesOK, Bool.and_eq_true] at h; exact h.2

theorem applyBuiltin_shapes (name : String) {args : List (Option Obj)}
    (hargs : optListShapesOK args = true) : resShapesOK (applyBuiltin name args) = true := by
  have herrArity2 : ∀ s : String, resShapesOK (.ok (newError
      ("wrong number of arguments. expected=2 got=" ++ s))) = true := fun s =>
    resShapesOK_error (codeShapeOK_append "wrong number of arguments. expected=2 got=" s
      (by decide))
  have herrArity1 : ∀ s : String, resShapesOK (.ok (newError
      ("wrong number of arguments. expected=1 got=" ++ s))) = true := fun s =>
    resShapesOK_error (codeShapeOK_append "wrong number of arguments. expected=1 got=" s
      (by decide))
  unfold applyBuiltin
  split
  · -- push
    unfold builtinPush
    split
    · exact herrArity2 _
    · split
      · rename_i elements a1 rest
        simp only [optListShapesOK, optShapesOK, objShapesOK, Bool.and_eq_true] at hargs
        simp only [resShapesOK, objShapesOK]
        exact optListShapesOK_append hargs.1 (by simp [optListShapesOK, hargs.2.1])
      · rfl
      · exact resShapesOK_error (codeShapeOK_append "argument to `" _ (by decide))
      · rfl
  · split
    · -- len
      unfold builtinLen
      split
      · exact herrArity1 _
      · split
        · exact resShapesOK_atom_integer _
        · exact resShapesOK_atom_integer _
        · rfl
        · exact resShapesOK_error (codeShapeOK_append "argument to `" _ (by decide))
        · rfl
    · split
      · -- first
        unfold builtinFirst
        split
        · exact herrArity1 _
        · split
          · rename_i elements
            simp only [optListShapesOK, optShapesOK, objShapesOK, Bool.and_eq_true] at hargs
            split
            · exact resShapesOK_atom_null
            · exact optShapesOK_ofOpt (optListShapesOK_getD 0 hargs.1)
          · rfl
          · exact resShapesOK_error (codeShapeOK_append "argument to `" _ (by decide))
          · rfl
      · split
        · -- last
          unfold builtinLast
          split
          · exact herrArity1 _
          · split
            · rename_i elements
              simp only [optListShapesOK, optShapesOK, objShapesOK, Bool.and_eq_true] at hargs
              split
              · exact resShapesOK_atom_null
              · exact optShapesOK_ofOpt (optListShapesOK_getD _ hargs.1)
            · rfl
            · exact resShapesOK_error (codeShapeOK_append "argument to `" _ (by decide))
            · rfl
        · split
          · -- rest
            unfold builtinRest
            split
            · exact herrArity1 _
            · split
              · rename_i elements
                simp only [optListShapesOK, optShapesOK, objShapesOK, Bool.and_eq_true] at hargs
                split
                · exact resShapesOK_atom_null
                · simp only [resShapesOK, objShapesOK]
                  exact optListShapesOK_tail hargs.1
              · rfl
              · exact resShapesOK_error (codeShapeOK_append "argument to `" _ (by decide))
              · rfl
          · rfl

theorem bindingsSet_shapes {bs : List (String × Option Obj)} {v : Option Obj}
    (hbs : bindingsShapesOK bs = true) (hv : optShapesOK v = true) (name : String) :
    bindingsShapesOK (bindingsSet bs name v) = true := by
  induction bs with
  | nil => simp [bindingsSet, bindingsShapesOK, hv]
  | cons b rest ih =>
    obtain ⟨n, w⟩ := b
    simp only [bindingsShapesOK, Bool.and_eq_true] at hbs
    simp only [bindingsSet]
    split
    · simp [bindingsShapesOK, hv, hbs.2]
    · simp [bindingsShapesOK, hbs.1, ih hbs.2]

theorem stateShapesOK_set :
    ∀ {st : State} {ref : Nat} {bs : List (String × Option Obj)} {par : Option Nat},
      stateShapesOK st = true → bindingsShapesOK bs = true →
      stateShapesOK (st.set ref ⟨bs, par⟩) = true := by
  intro st
  induction st with
  | nil => intro ref bs par h _; exact h
  | cons ed rest ih =>
    intro ref bs par h hbs
    simp only [stateShapesOK, Bool.and_eq_true] at h
    cases ref with
    | zero => simp [List.set, stateShapesOK, hbs, h.2]
    | succ r => simp [List.set, stateShapesOK, h.1, ih h.2 hbs]

theorem envSet_shapes {st : State} {ref : Nat} {v : Option Obj} (hok : stateShapesOK st = true)
    (hv : optShapesOK v = true) (name : String) :
    stateShapesOK (envSet st ref name v) = true := by
  unfold envSet
  cases hget : st.get? ref with
  | none => exact hok
  | some ed =>
    exact stateShapesOK_set hok (bindingsSet_shapes (stateShapesOK_get hok hget) hv name)

theorem stateShapesOK_append_empty {st : State} (hok : stateShapesOK st = true)
    (par : Option Nat) : stateShapesOK (st ++ [⟨[], par⟩]) = true := by
  induction st with
  | nil => rfl
  | cons ed rest ih =>
    simp only [stateShapesOK, Bool.and_eq_true] at hok
    simp only [List.cons_append, stateShapesOK, Bool.and_eq_true]
    exact ⟨hok.1, ih hok.2⟩

theorem bindParameters_shapes :
    ∀ (parameters : List String) {args : List (Option Obj)} {ref : Nat} {st st' : State},
      stateShapesOK st = true → optListShapesOK args = true →
      bindParameters parameters args ref st = some st' → stateShapesOK st' = true := by
  intro parameters
  induction parameters with
  | nil =>
    intro args ref st st' hok _ h
    cases args <;> (simp only [bindParameters] at h; cases h; exact hok)
  | cons p ps ih =>
    intro args ref st st' hok hargs h
    cases args with
    | nil => exact absurd h (by simp [bindParameters])
    | cons a as' =>
      simp only [optListShapesOK, Bool.and_eq_true] at hargs
      simp only [bindParameters] at h
      exact ih (envSet_shapes hok hargs.1 p) hargs.2 h

theorem extendFunctionEnv_shapes {parameters : List String} {args : List (Option Obj)}
    {fnEnv ref : Nat} {st st' : State} (hok : stateShapesOK st = true)
    (hargs : optListShapesOK args = true)
    (h : extendFunctionEnv parameters args fnEnv st = some (ref, st')) :
    stateShapesOK st' = true := by
  unfold extendFunctionEnv newEnclosedEnvironment at h
  simp only at h
  cases hb : bindParameters parameters args st.length (st ++ [⟨[], some fnEnv⟩]) with
  | none => rw [hb] at h; exact Option.noConfusion h
  | some st'' =>
    rw [hb] at h
    have : st'' = st' := congrArg Prod.snd (Option.some.inj h)
    subst this
    exact bindParameters_shapes parameters (stateShapesOK_append_empty hok _) hargs hb

theorem hashInsert_shapes :
    ∀ {pairs : List (HashKey × Obj × Option Obj)} {hk : HashKey} {ko : Obj} {v : Option Obj},
      hashPairsShapesOK pairs = true → objShapesOK ko = true → optShapesOK v = true →
      hashPairsShapesOK (hashInsert pairs hk ko v) = true := by
  intro pairs
  induction pairs with
  | nil => intro hk ko v _ hko hv; simp [hashInsert, hashPairsShapesOK, hko, hv]
  | cons pr rest ih =>
    intro hk ko v hps hko hv
    obtain ⟨k', ko', v'⟩ := pr
    simp only [hashPairsShapesOK, Bool.and_eq_true] at hps
    simp only [hashInsert]
    split
    · simp [hashPairsShapesOK, hko, hv, hps.2]
    · simp [hashPairsShapesOK, hps.1.1, hps.1.2, ih hps.2 hko hv]

theorem hashLookup_shapes :
    ∀ {pairs : List (HashKey × Obj × Option Obj)} {k : HashKey} {ko : Obj} {v : Option Obj},
      hashPairsShapesOK pairs = true → hashLookup pairs k = some (ko, v) →
      optShapesOK v = true := by
  intro pairs
  induction pairs with
  | nil => intro k ko v _ h; exact absurd h (by simp [hashLookup])
  | cons pr rest ih =>
    intro k ko v hps h
    obtain ⟨k', ko', v'⟩ := pr
    simp only [hashPairsShapesOK, Bool.and_eq_true] at hps
    simp only [hashLookup] at h
    split at h
    · cases h; exact hps.1.2
    · exact ih hps.2 h

theorem optListShapesOK_headD {l : List (Option Obj)} (h : optListShapesOK l = true) :
    optShapesOK (l.headD none) = true := by
  cases l with
  | nil => rfl
  | cons v rest => simp only [optListShapesOK, Bool.and_eq_true] at h; exact h.1

/-- Shape preservation through one evaluation step: every error message
in the result and in the final state has one of the code's shapes,
provided the incoming state (and accumulators) do.  One conjunct per
function of the evaluator's mutual block. -/
def ShapesAt (fuel : Nat) : Prop :=
  (∀ e env st, stateShapesOK st = true →
    resShapesOK (evalExpr fuel e env st).1 = true ∧
    stateShapesOK (evalExpr fuel e env st).2 = true)
  ∧ (∀ s env st, stateShapesOK st = true →
    resShapesOK (evalStmt fuel s env st).1 = true ∧
    stateShapesOK (evalStmt fuel s env st).2 = true)
  ∧ (∀ name value env st, stateShapesOK st = true →
    resShapesOK (evalLetStatement fuel name value env st).1 = true ∧
    stateShapesOK (evalLetStatement fuel name value env st).2 = true)
  ∧ (∀ value env st, stateShapesOK st = true →
    resShapesOK (evalReturnStatement fuel value env st).1 = true ∧
    stateShapesOK (evalReturnStatement fuel value env st).2 = true)
  ∧ (∀ c cons alt env st, stateShapesOK st = true →
    resShapesOK (evalIfExpression fuel c cons alt env st).1 = true ∧
    stateShapesOK (evalIfExpression fuel c cons alt env st).2 = true)
  ∧ (∀ stmts env st acc, stateShapesOK st = true → resShapesOK acc = true →
    resShapesOK (evalBlockStatement fuel stmts env st acc).1 = true ∧
    stateShapesOK (evalBlockStatement fuel stmts env st acc).2 = true)
  ∧ (∀ exps env st results, stateShapesOK st = true → optListShapesOK results = true →
    listResShapesOK (evalExpressions fuel exps env st results).1 = true ∧
    stateShapesOK (evalExpressions fuel exps env st results).2 = true)
  ∧ (∀ pairs env st acc, stateShapesOK st = true → hashPairsShapesOK acc = true →
    resShapesOK (evalHashPairs fuel pairs env st acc).1 = true ∧
    stateShapesOK (evalHashPairs fuel pairs env st acc).2 = true)
  ∧ (∀ fn args st, stateShapesOK st = true → optShapesOK fn = true →
    optListShapesOK args = true →
    resShapesOK (applyFunction fuel fn args st).1 = true ∧
    stateShapesOK (applyFunction fuel fn args st).2 = true)

theorem seqRes_shapes {x : Res × State} {k : Res → State → Res × State}
    (hx1 : resShapesOK x.1 = true) (hx2 : stateShapesOK x.2 = true)
    (hk : ∀ r st, resShapesOK r = true → stateShapesOK st = true →
      resShapesOK (k r st).1 = true ∧ stateShapesOK (k r st).2 = true) :
    resShapesOK (seqRes x k).1 = true ∧ stateShapesOK (seqRes x k).2 = true := by
  obtain ⟨r, st⟩ := x
  cases r with
  | hostAbort => exact ⟨rfl, hx2⟩
  | outOfFuel => exact ⟨rfl, hx2⟩
  | ok o => exact hk _ _ hx1 hx2
  | goNil => exact hk _ _ hx1 hx2

theorem shapes_let_step {fuel : Nat} (ih : ShapesAt fuel) :
    ∀ name value env st, stateShapesOK st = true →
      resShapesOK (evalLetStatement (fuel + 1) name value env st).1 = true ∧
      stateShapesOK (evalLetStatement (fuel + 1) name value env st).2 = true := by
  intro name value env st hst
  simp only [evalLetStatement]
  apply seqRes_shapes (ih.1 value env st hst).1 (ih.1 value env st hst).2
  intro r st1 hr hst1
  split
  · exact ⟨hr, hst1⟩
  · exact ⟨hr, envSet_shapes hst1 (resShapesOK_toOpt hr) name⟩

theorem shapes_return_step {fuel : Nat} (ih : ShapesAt fuel) :
    ∀ value env st, stateShapesOK st = true →
      resShapesOK (evalReturnStatement (fuel + 1) value env st).1 = true ∧
      stateShapesOK (evalReturnStatement (fuel + 1) value env st).2 = true := by
  intro value env st hst
  simp only [evalReturnStatement]
  apply seqRes_shapes (ih.1 value env st hst).1 (ih.1 value env st hst).2
  intro r st1 hr hst1
  split
  · exact ⟨hr, hst1⟩
  · refine ⟨?_, hst1⟩
    simp only [resShapesOK, objShapesOK]
    exact resShapesOK_toOpt hr

theorem shapes_if_step {fuel : Nat} (ih : ShapesAt fuel) :
    ∀ c cons alt env st, stateShapesOK st = true →
      resShapesOK (evalIfExpression (fuel + 1) c cons alt env st).1 = true ∧
      stateShapesOK (evalIfExpression (fuel + 1) c cons alt env st).2 = true := by
  intro c cons alt env st hst
  simp only [evalIfExpression]
  apply seqRes_shapes (ih.1 c env st hst).1 (ih.1 c env st hst).2
  intro r st1 hr hst1
  split
  · exact ⟨hr, hst1⟩
  · split
    · exact ih.2.2.2.2.2.1 cons env st1 .goNil hst1 rfl
    · split
      · exact ih.2.2.2.2.2.1 _ env st1 .goNil hst1 rfl
      · exact ⟨resShapesOK_atom_null, hst1⟩

theorem shapes_block_step {fuel : Nat} (ih : ShapesAt fuel) :
    ∀ stmts env st acc, stateShapesOK st = true → resShapesOK acc = true →
      resShapesOK (evalBlockStatement (fuel + 1) stmts env st acc).1 = true ∧
      stateShapesOK (evalBlockStatement (fuel + 1) stmts env st acc).2 = true := by
  intro stmts env st acc hst hacc
  cases stmts with
  | nil => exact ⟨hacc, hst⟩
  | cons s rest =>
    simp only [evalBlockStatement]
    apply seqRes_shapes (ih.2.1 s env st hst).1 (ih.2.1 s env st hst).2
    intro r st1 hr hst1
    cases r with
    | ok o =>
      show resShapesOK (if objType o = "RETURN_VALUE" ∨ objType o = "ERROR"
          then ((Res.ok o : Res), st1)
          else evalBlockStatement fuel rest env st1 (Res.ok o)).1 = true ∧
        stateShapesOK (if objType o = "RETURN_VALUE" ∨ objType o = "ERROR"
          then ((Res.ok o : Res), st1)
          else evalBlockStatement fuel rest env st1 (Res.ok o)).2 = true
      by_cases hsig : objType o = "RETURN_VALUE" ∨ objType o = "ERROR"
      · rw [if_pos hsig]
        exact ⟨hr, hst1⟩
      · rw [if_neg hsig]
        exact ih.2.2.2.2.2.1 rest env st1 (.ok o) hst1 hr
    | goNil => exact ih.2.2.2.2.2.1 rest env st1 .goNil hst1 rfl
    | hostAbort => exact ih.2.2.2.2.2.1 rest env st1 .hostAbort hst1 rfl
    | outOfFuel => exact ih.2.2.2.2.2.1 rest env st1 .outOfFuel hst1 rfl

theorem shapes_expressions_step {fuel : Nat} (ih : ShapesAt fuel) :
    ∀ exps env st results, stateShapesOK st = true → optListShapesOK results = true →
      listResShapesOK (evalExpressions (fuel + 1) exps env st results).1 = true ∧
      stateShapesOK (evalExpressions (fuel + 1) exps env st results).2 = true := by
  intro exps env st results hst hres
  cases exps with
  | nil => exact ⟨hres, hst⟩
  | cons e rest =>
    simp only [evalExpressions]
    have he := ih.1 e env st hst
    cases hE : evalExpr fuel e env st with
    | mk r st1 =>
      rw [hE] at he
      simp only at he
      cases r with
      | hostAbort => exact ⟨rfl, he.2⟩
      | outOfFuel => exact ⟨rfl, he.2⟩
      | ok o =>
        simp only
        split
        · refine ⟨?_, he.2⟩
          simp only [listResShapesOK, optListShapesOK, Bool.and_eq_true]
          simp [resShapesOK_toOpt he.1]
        · exact ih.2.2.2.2.2.2.1 rest env st1 _ he.2
            (optListShapesOK_append hres (by simp [optListShapesOK, resShapesOK_toOpt he.1]))
      | goNil =>
        simp only
        split
        · refine ⟨?_, he.2⟩
          simp [listResShapesOK, optListShapesOK, Res.toOpt, optShapesOK]
        · exact ih.2.2.2.2.2.2.1 rest env st1 _ he.2
            (optListShapesOK_append hres (by simp [optListShapesOK, Res.toOpt, optShapesOK]))

theorem shapes_hash_step {fuel : Nat} (ih : ShapesAt fuel) :
    ∀ pairs env st acc, stateShapesOK st = true → hashPairsShapesOK acc = true →
      resShapesOK (evalHashPairs (fuel + 1) pairs env st acc).1 = true ∧
      stateShapesOK (evalHashPairs (fuel + 1) pairs env st acc).2 = true := by
  intro pairs env st acc hst hacc
  cases pairs with
  | nil =>
    refine ⟨?_, hst⟩
    simpa [resShapesOK, objShapesOK] using hacc
  | cons kv rest =>
    obtain ⟨k, v⟩ := kv
    simp only [evalHashPairs]
    apply seqRes_shapes (ih.1 v env st hst).1 (ih.1 v env st hst).2
    intro value st1 hv hst1
    apply seqRes_shapes (ih.1 k env st1 hst1).1 (ih.1 k env st1 hst1).2
    intro keyObj st2 hk hst2
    cases hko : keyObj.toOpt with
    | none => exact ⟨rfl, hst2⟩
    | some ko =>
      simp only
      cases hhk : hashKeyOf ko with
      | none =>
        exact ⟨resShapesOK_error (codeShapeOK_append "Cannot use as key " _ (by decide)), hst2⟩
      | some hk' =>
        have hkoOK : objShapesOK ko = true := by
          have := resShapesOK_toOpt hk
          rw [hko] at this
          simpa [optShapesOK] using this
        exact ih.2.2.2.2.2.2.2.1 rest env st2 _ hst2
          (hashInsert_shapes hacc hkoOK (resShapesOK_toOpt hv))

theorem shapes_apply_step {fuel : Nat} (ih : ShapesAt fuel) :
    ∀ fn args st, stateShapesOK st = true → optShapesOK fn = true →
      optListShapesOK args = true →
      resShapesOK (applyFunction (fuel + 1) fn args st).1 = true ∧
      stateShapesOK (applyFunction (fuel + 1) fn args st).2 = true := by
  intro fn args st hst hfn hargs
  simp only [applyFunction]
  match fn with
  | some (.function parameters body fnEnv) =>
    simp only
    cases hext : extendFunctionEnv parameters args fnEnv st with
    | none => exact ⟨rfl, hst⟩
    | some cs =>
      obtain ⟨closure, st1⟩ := cs
      have hst1 : stateShapesOK st1 = true := extendFunctionEnv_shapes hst hargs hext
      have hb := ih.2.2.2.2.2.1 body closure st1 .goNil hst1 rfl
      exact ⟨unwrapReturnValue_shapes hb.1, hb.2⟩
  | some (.builtin name) => exact ⟨applyBuiltin_shapes name hargs, hst⟩
  | none => exact ⟨resShapesOK_error (codeShapeOK_append "not a function: " _ (by decide)), hst⟩
  | some (.integer x) =>
    exact ⟨resShapesOK_error (codeShapeOK_append "not a function: " _ (by decide)), hst⟩
  | some (.boolean x) =>
    exact ⟨resShapesOK_error (codeShapeOK_append "not a function: " _ (by decide)), hst⟩
  | some .null =>
    exact ⟨resShapesOK_error (codeShapeOK_append "not a function: " _ (by decide)), hst⟩
  | some (.str x) =>
    exact ⟨resShapesOK_error (codeShapeOK_append "not a function: " _ (by decide)), hst⟩
  | some (.array x) =>
    exact ⟨resShapesOK_error (codeShapeOK_append "not a function: " _ (by decide)), hst⟩
  | some (.hash x) =>
    exact ⟨resShapesOK_error (codeShapeOK_append "not a function: " _ (by decide)), hst⟩
  | some (.returnValue x) =>
    exact ⟨resShapesOK_error (codeShapeOK_append "not a function: " _ (by decide)), hst⟩
  | some (.error x) =>
    exact ⟨resShapesOK_error (codeShapeOK_append "not a function: " _ (by decide)), hst⟩

theorem shapes_stmt_step {fuel : Nat} (ih : ShapesAt fuel) :
    ∀ s env st, stateShapesOK st = true →
      resShapesOK (evalStmt (fuel + 1) s env st).1 = true ∧
      stateShapesOK (evalStmt (fuel + 1) s env st).2 = true := by
  intro s env st hst
  cases s with
  | letS name value => exact ih.2.2.1 name value env st hst
  | returnS value => exact ih.2.2.2.1 value env st hst
  | exprS e => exact ih.1 e env st hst

theorem shapes_expr_step {fuel : Nat} (ih : ShapesAt fuel) :
    ∀ e env st, stateShapesOK st = true →
      resShapesOK (evalExpr (fuel + 1) e env st).1 = true ∧
      stateShapesOK (evalExpr (fuel + 1) e env st).2 = true := by
  intro e env st hst
  cases e with
  | nilE => exact ⟨rfl, hst⟩
  | ident name => exact ⟨evalIdentifier_shapes hst, hst⟩
  | intLit lit value => exact ⟨resShapesOK_atom_integer value, hst⟩
  | boolLit lit value => exact ⟨resShapesOK_atom_boolean value, hst⟩
  | strLit value => exact ⟨resShapesOK_atom_str value, hst⟩
  | prefixE operator right =>
    show resShapesOK (seqRes (evalExpr fuel right env st) _).1 = true ∧
      stateShapesOK (seqRes (evalExpr fuel right env st) _).2 = true
    apply seqRes_shapes (ih.1 right env st hst).1 (ih.1 right env st hst).2
    intro r st1 hr hst1
    split
    · exact ⟨hr, hst1⟩
    · exact ⟨evalPrefixExpression_shapes operator r.toOpt, hst1⟩
  | infixE left operator right =>
    show resShapesOK (seqRes (evalExpr fuel right env st) _).1 = true ∧
      stateShapesOK (seqRes (evalExpr fuel right env st) _).2 = true
    apply seqRes_shapes (ih.1 right env st hst).1 (ih.1 right env st hst).2
    intro r st1 hr hst1
    split
    · exact ⟨hr, hst1⟩
    · apply seqRes_shapes (ih.1 left env st1 hst1).1 (ih.1 left env st1 hst1).2
      intro l st2 hl hst2
      split
      · exact ⟨hl, hst2⟩
      · exact ⟨evalInfixExpression_shapes l.toOpt operator r.toOpt, hst2⟩
  | ifE c cons alt => exact ih.2.2.2.2.1 c cons alt env st hst
  | fnE parameters body =>
    refine ⟨?_, hst⟩
    show objShapesOK (.function parameters body env) = true
    simp [objShapesOK]
  | callE function parameters =>
    show resShapesOK (seqRes (evalExpr fuel function env st) _).1 = true ∧
      stateShapesOK (seqRes (evalExpr fuel function env st) _).2 = true
    apply seqRes_shapes (ih.1 function env st hst).1 (ih.1 function env st hst).2
    intro f st1 hf hst1
    split
    · exact ⟨hf, hst1⟩
    · have hexps := ih.2.2.2.2.2.2.1 parameters env st1 [] hst1 rfl
      cases hE : evalExpressions fuel parameters env st1 [] with
      | mk res st2 =>
        rw [hE] at hexps
        simp only at hexps
        cases res with
        | error r => exact ⟨hexps.1, hexps.2⟩
        | ok args =>
          simp only
          split
          · exact ⟨optShapesOK_ofOpt (optListShapesOK_headD hexps.1), hexps.2⟩
          · exact ih.2.2.2.2.2.2.2.2 f.toOpt args st2 hexps.2 (resShapesOK_toOpt hf) hexps.1
  | arrayE elements =>
    have hexps := ih.2.2.2.2.2.2.1 elements env st [] hst rfl
    cases hE : evalExpressions fuel elements env st [] with
    | mk res st1 =>
      show resShapesOK (match evalExpressions fuel elements env st [] with
          | (.error r, st1) => (r, st1)
          | (.ok els, st1) =>
            if els.length == 1 && isErrorO (els.headD none) then
              (Res.ofOpt (els.headD none), st1)
            else ((.ok (.array els) : Res), st1)).1 = true ∧
        stateShapesOK (match evalExpressions fuel elements env st [] with
          | (.error r, st1) => (r, st1)
          | (.ok els, st1) =>
            if els.length == 1 && isErrorO (els.headD none) then
              (Res.ofOpt (els.headD none), st1)
            else ((.ok (.array els) : Res), st1)).2 = true
      rw [hE] at hexps ⊢
      simp only at hexps
      cases res with
      | error r => exact ⟨hexps.1, hexps.2⟩
      | ok els =>
        simp only
        split
        · exact ⟨optShapesOK_ofOpt (optListShapesOK_headD hexps.1), hexps.2⟩
        · refine ⟨?_, hexps.2⟩
          simp only [resShapesOK, objShapesOK]
          exact hexps.1
  | hashE pairs => exact ih.2.2.2.2.2.2.2.1 pairs env st [] hst rfl
  | indexE target index =>
    show resShapesOK (seqRes (evalExpr fuel target env st) _).1 = true ∧
      stateShapesOK (seqRes (evalExpr fuel target env st) _).2 = true
    apply seqRes_shapes (ih.1 target env st hst).1 (ih.1 target env st hst).2
    intro t st1 ht hst1
    cases t with
    | goNil => exact ⟨rfl, hst1⟩
    | hostAbort => exact ⟨rfl, hst1⟩
    | outOfFuel => exact ⟨rfl, hst1⟩
    | ok o =>
      cases o with
      | array elements =>
        have helems : optListShapesOK elements = true := by
          simpa [resShapesOK, objShapesOK] using ht
        show resShapesOK (seqRes (evalExpr fuel index env st1) _).1 = true ∧
          stateShapesOK (seqRes (evalExpr fuel index env st1) _).2 = true
        apply seqRes_shapes (ih.1 index env st1 hst1).1 (ih.1 index env st1 hst1).2
        intro i st2 hi hst2
        cases hio : i.toOpt with
        | none => exact ⟨rfl, hst2⟩
        | some io =>
          simp only
          cases io with
          | integer iv =>
            simp only
            split
            · exact ⟨resShapesOK_error
                (codeShapeOK_append "Cannot index with a negative number " _ (by decide)),
                hst2⟩
            · split
              · exact ⟨resShapesOK_error
                  (codeShapeOK_append "Index is larger than the max. index=" _ (by decide)),
                  hst2⟩
              · exact ⟨optShapesOK_ofOpt (optListShapesOK_getD _ helems), hst2⟩
          | boolean v => exact ⟨resShapesOK_error
              (codeShapeOK_append "Cannot use as index " _ (by decide)), hst2⟩
          | null => exact ⟨resShapesOK_error
              (codeShapeOK_append "Cannot use as index " _ (by decide)), hst2⟩
          | str v => exact ⟨resShapesOK_error
              (codeShapeOK_append "Cannot use as index " _ (by decide)), hst2⟩
          | array v => exact ⟨resShapesOK_error
              (codeShapeOK_append "Cannot use as index " _ (by decide)), hst2⟩
          | hash v => exact ⟨resShapesOK_error
              (codeShapeOK_append "Cannot use as index " _ (by decide)), hst2⟩
          | function a b c => exact ⟨resShapesOK_error
              (codeShapeOK_append "Cannot use as index " _ (by decide)), hst2⟩
          | builtin v => exact ⟨resShapesOK_error
              (codeShapeOK_append "Cannot use as index " _ (by decide)), hst2⟩
          | returnValue v => exact ⟨resShapesOK_error
              (codeShapeOK_append "Cannot use as index " _ (by decide)), hst2⟩
          | error m => exact ⟨resShapesOK_error
              (codeShapeOK_append "Cannot use as index " _ (by decide)), hst2⟩
      | hash ps =>
        have hps : hashPairsShapesOK ps = true := by
          simpa [resShapesOK, objShapesOK] using ht
        show resShapesOK (seqRes (evalExpr fuel index env st1) _).1 = true ∧
          stateShapesOK (seqRes (evalExpr fuel index env st1) _).2 = true
        apply seqRes_shapes (ih.1 index env st1 hst1).1 (ih.1 index env st1 hst1).2
        intro i st2 hi hst2
        cases hio : i.toOpt with
        | none => exact ⟨rfl, hst2⟩
        | some io =>
          simp only
          cases hhk : hashKeyOf io with
          | none => exact ⟨resShapesOK_error
              (codeShapeOK_append "Cannot use as index " _ (by decide)), hst2⟩
          | some k =>
            simp only
            cases hlook : hashLookup ps k with
            | none => exact ⟨rfl, hst2⟩
            | some kv =>
              obtain ⟨ko, v⟩ := kv
              exact ⟨optShapesOK_ofOpt (hashLookup_shapes hps hlook), hst2⟩
      | integer v => exact ⟨resShapesOK_error
          (codeShapeOK_append "Cannot index type " _ (by decide)), hst1⟩
      | boolean v => exact ⟨resShapesOK_error
          (codeShapeOK_append "Cannot index type " _ (by decide)), hst1⟩
      | null => exact ⟨resShapesOK_error
          (codeShapeOK_append "Cannot index type " _ (by decide)), hst1⟩
      | str v => exact ⟨resShapesOK_error
          (codeShapeOK_append "Cannot index type " _ (by decide)), hst1⟩
      | function a b c => exact ⟨resShapesOK_error
          (codeShapeOK_append "Cannot index type " _ (by decide)), hst1⟩
      | builtin v => exact ⟨resShapesOK_error
          (codeShapeOK_append "Cannot index type " _ (by decide)), hst1⟩
      | returnValue v => exact ⟨resShapesOK_error
          (codeShapeOK_append "Cannot index type " _ (by decide)), hst1⟩
      | error m => exact ⟨resShapesOK_error
          (codeShapeOK_append "Cannot index type " _ (by decide)), hst1⟩

theorem shapesAt_zero : ShapesAt 0 := by
  refine ⟨?_, ?_, ?_, ?_, ?_, ?_, ?_, ?_, ?_⟩
  · exact fun e env st h => ⟨rfl, h⟩
  · exact fun s env st h => ⟨rfl, h⟩
  · exact fun name value env st h => ⟨rfl, h⟩
  · exact fun value env st h => ⟨rfl, h⟩
  · exact fun c cons alt env st h => ⟨rfl, h⟩
  · exact fun stmts env st acc h _ => ⟨rfl, h⟩
  · exact fun exps env st results h _ => ⟨rfl, h⟩
  · exact fun pairs env st acc h _ => ⟨rfl, h⟩
  · exact fun fn args st h _ _ => ⟨rfl, h⟩

theorem shapesAt_succ {fuel : Nat} (ih : ShapesAt fuel) : ShapesAt (fuel + 1) :=
  ⟨shapes_expr_step ih, shapes_stmt_step ih, shapes_let_step ih, shapes_return_step ih,
   shapes_if_step ih, shapes_block_step ih, shapes_expressions_step ih,
   shapes_hash_step ih, shapes_apply_step ih⟩

theorem shapes_master : ∀ fuel, ShapesAt fuel := by
  intro fuel
  induction fuel with
  | zero => exact shapesAt_zero
  | succ fuel ih => exact shapesAt_succ ih

theorem shapes_program :
    ∀ fuel stmts env st acc, stateShapesOK st = true → resShapesOK acc = true →
      resShapesOK (evalProgram fuel stmts env st acc).1 = true ∧
      stateShapesOK (evalProgram fuel stmts env st acc).2 = true := by
  intro fuel
  induction fuel with
  | zero => intro stmts env st acc h _; exact ⟨rfl, h⟩
  | succ fuel ihp =>
    intro stmts env st acc hst hacc
    cases stmts with
    | nil => exact ⟨hacc, hst⟩
    | cons s rest =>
      have hs := (shapes_master fuel).2.1 s env st hst
      show resShapesOK (seqRes (evalStmt fuel s env st) _).1 = true ∧
        stateShapesOK (seqRes (evalStmt fuel s env st) _).2 = true
      apply seqRes_shapes hs.1 hs.2
      intro r st1 hr hst1
      cases r with
      | goNil => exact ihp rest env st1 .goNil hst1 rfl
      | hostAbort => exact ihp rest env st1 .hostAbort hst1 rfl
      | outOfFuel => exact ihp rest env st1 .outOfFuel hst1 rfl
      | ok o =>
        cases o with
        | returnValue v =>
          refine ⟨?_, hst1⟩
          exact optShapesOK_ofOpt (by simpa [resShapesOK, objShapesOK] using hr)
        | error m => exact ⟨hr, hst1⟩
        | integer v => exact ihp rest env st1 _ hst1 hr
        | boolean v => exact ihp rest env st1 _ hst1 hr
        | null => exact ihp rest env st1 _ hst1 hr
        | str v => exact ihp rest env st1 _ hst1 hr
        | array v => exact ihp rest env st1 _ hst1 hr
        | hash v => exact ihp rest env st1 _ hst1 hr
        | function a b c => exact ihp rest env st1 _ hst1 hr
        | builtin v => exact ihp rest env st1 _ hst1 hr

/-- -true -/
def c4minusProgram : List Stmt := [.exprS (.prefixE "-" (.boolLit "true" true))]

/-- 5(3) -/
def c4notAFunctionProgram : List Stmt := [.exprS (.callE (iL 5) [iL 3])]

/-- Counterexample for claim C4: the unknown-operator message is
spelled "unkown" by every newError call site (and matched that way by
the test suite), so it does not carry any of the spec's claimed shapes
character for character; and the not-a-function message carries the
host's type representation, not the language-level type name. -/
theorem claim_C4_counterexample :
    (runProgram 50 c4minusProgram).1 = .ok (.error "unkown operator: -BOOLEAN")
    ∧ specShapeOK "unkown operator: -BOOLEAN" = false
    ∧ (runProgram 50 c4notAFunctionProgram).1 =
      .ok (.error "not a function: *object.Integer")
    ∧ (runProgram 50 c4notAFunctionProgram).1 ≠ .ok (.error "not a function: INTEGER") := by
  refine ⟨rfl, by decide, rfl, ?_⟩
  intro h
  rw [show (runProgram 50 c4notAFunctionProgram).1 =
    .ok (.error "not a function: *object.Integer") from rfl] at h
  have := Obj.error.inj (Res.ok.inj h)
  simp at this

/-- C4 as amended: every Error value produced by evaluating a program
(from a state whose stored values are themselves shape-clean, in
particular the fresh REPL state) carries one of the shapes the code
actually emits: "unkown operator: ", "type mismatch: ",
"identifier not found: ", "Cannot use as key ", "Cannot use as index ",
"Cannot index type ", "Cannot index with a negative number ",
"Index is larger than the max. index=",
"wrong number of arguments. expected=", "argument to `", and
"not a function: " followed by the host type representation. -/
theorem claim_C4_error_message_shapes :
    (∀ fuel stmts env st acc m st', stateShapesOK st = true → resShapesOK acc = true →
      evalProgram fuel stmts env st acc = (.ok (.error m), st') → codeShapeOK m = true)
    ∧ (∀ fuel e env st m st', stateShapesOK st = true →
      evalExpr fuel e env st = (.ok (.error m), st') → codeShapeOK m = true)
    ∧ (∀ fuel stmts m, (runProgram fuel stmts).1 = .ok (.error m) →
      codeShapeOK m = true) := by
  refine ⟨?_, ?_, ?_⟩
  · intro fuel stmts env st acc m st' hst hacc h
    have := (shapes_program fuel stmts env st acc hst hacc).1
    rw [h] at this
    simpa [resShapesOK, objShapesOK] using this
  · intro fuel e env st m st' hst h
    have := ((shapes_master fuel).1 e env st hst).1
    rw [h] at this
    simpa [resShapesOK, objShapesOK] using this
  · intro fuel stmts m h
    cases hrp : evalProgram fuel stmts 0 ([] ++ [(⟨[], none⟩ : EnvData)]) .goNil with
    | mk r stFin =>
      have := shapes_program fuel stmts 0 ([] ++ [(⟨[], none⟩ : EnvData)]) .goNil
        (by rfl) (by rfl)
      rw [hrp] at this
      have hr : (runProgram fuel stmts).1 = r := by
        simp only [runProgram, newEnvironment]
        rw [show (([] : State).length) = 0 from rfl]
        rw [hrp]
      rw [hr] at h
      subst h
      simpa [resShapesOK, objShapesOK] using this.1

/-- Witness for claim C4: the amended shape law applied to the concrete
program (-true) evaluated in the fresh REPL state. -/
theorem claim_C4_error_message_shapes_witness :
    codeShapeOK "unkown operator: -BOOLEAN" = true := by
  exact claim_C4_error_message_shapes.2.2 50 c4minusProgram
    "unkown operator: -BOOLEAN" rfl

/-! ## Claim C7: ReturnValue wrappers in bindings and containers

The claim fails on the code: a return statement executed inside an
if-expression in value position makes the whole expression evaluate to
a ReturnValue, and evalLetStatement, evalExpressions and evalHashPairs
store whatever non-Error value they are handed, ReturnValue included.

The amended invariant is restricted by a syntactic return-safety
predicate.  `exprNR e` holds when evaluating e can never produce a
ReturnValue (no return statement occurs in any if-block of e in value
position, and every function body inside e is itself safe);
`exprNR1 e` additionally allows the result to be a single ReturnValue
wrapping a safe value (if-expressions in statement position).
`bodyNR1` is the predicate for function bodies and top-level programs,
where return statements are legitimate: their wrapper is unwrapped
exactly once at applyFunction or evalProgram. -/

mutual
def exprNR : Expr → Bool
  | .nilE => true
  | .ident _ => true
  | .intLit _ _ => true
  | .boolLit _ _ => true
  | .strLit _ => true
  | .prefixE _ right => exprNR right
  | .infixE left _ right => exprNR left && exprNR right
  | .ifE c cons alt =>
    exprNR c && blockNR cons &&
      (match alt with
       | none => true
       | some b => blockNR b)
  | .fnE _ body => bodyNR1 body
  | .callE f args => exprNR f && exprListNR args
  | .arrayE els => exprListNR els
  | .hashE pairs => pairListNR pairs
  | .indexE t i => exprNR t && exprNR i
termination_by e => (sizeOf e, 0)

def exprNR1 : Expr → Bool
  | .ifE c cons alt =>
    exprNR c && bodyNR1 cons &&
      (match alt with
       | none => true
       | some b => bodyNR1 b)
  | e => exprNR e
termination_by e => (sizeOf e, 1)

def exprListNR : List Expr → Bool
  | [] => true
  | e :: rest => exprNR e && exprListNR rest
termination_by l => (sizeOf l, 0)

def pairListNR : List (Expr × Expr) → Bool
  | [] => true
  | (k, v) :: rest => exprNR k && exprNR v && pairListNR rest
termination_by l => (sizeOf l, 0)

def blockNR : List Stmt → Bool
  | [] => true
  | s :: rest => stmtNR s && blockNR rest
termination_by l => (sizeOf l, 1)

def stmtNR : Stmt → Bool
  | .letS _ v => exprNR v
  | .returnS _ => false
  | .exprS e => exprNR e
termination_by s => (sizeOf s, 0)

def bodyNR1 : List Stmt → Bool
  | [] => true
  | s :: rest => stmtNR1 s && bodyNR1 rest
termination_by l => (sizeOf l, 2)

def stmtNR1 : Stmt → Bool
  | .letS _ v => exprNR v
  | .returnS v => exprNR v
  | .exprS e => exprNR1 e
termination_by s => (sizeOf s, 2)
end

/-! Value cleanliness: no ReturnValue wrapper anywhere inside, and
every function value's stored body is return-safe (so later
applications stay clean). -/

mutual
def objClean : Obj → Bool
  | .returnValue _ => false
  | .array elements => optListClean elements
  | .hash pairs => hashPairsClean pairs
  | .function _ body _ => bodyNR1 body
  | _ => true

def optClean : Option Obj → Bool
  | none => true
  | some o => objClean o

def optListClean : List (Option Obj) → Bool
  | [] => true
  | v :: rest => optClean v && optListClean rest

def hashPairsClean : List (HashKey × Obj × Option Obj) → Bool
  | [] => true
  | (_, ko, v) :: rest => objClean ko && optClean v && hashPairsClean rest
end

def resClean : Res → Bool
  | .ok o => objClean o
  | _ => true

/-- Clean, or a single ReturnValue wrapping a clean value. -/
def resClean1 : Res → Bool
  | .ok (.returnValue v) => optClean v
  | .ok o => objClean o
  | _ => true

def listResClean : Except Res (List (Option Obj)) → Bool
  | .error r => resClean r
  | .ok l => optListClean l

def bindingsClean : List (String × Option Obj) → Bool
  | [] => true
  | (_, v) :: rest => optClean v && bindingsClean rest

def stateClean : State → Bool
  | [] => true
  | ed :: rest => bindingsClean ed.bindings && stateClean rest

theorem resClean_toOpt {r : Res} (h : resClean r = true) : optClean r.toOpt = true := by
  cases r <;> simp_all [resClean, Res.toOpt, optClean]

theorem optClean_ofOpt {v : Option Obj} (h : optClean v = true) :
    resClean (Res.ofOpt v) = true := by
  cases v <;> simp_all [resClean, Res.ofOpt, optClean]

theorem resClean_is_resClean1 {r : Res} (h : resClean r = true) : resClean1 r = true := by
  cases r with
  | ok o => cases o <;> simp_all [resClean, resClean1, objClean]
  | goNil => rfl
  | hostAbort => rfl
  | outOfFuel => rfl

theorem unwrapReturnValue_clean {r : Res} (h : resClean1 r = true) :
    resClean (unwrapReturnValue r) = true := by
  cases r with
  | ok o =>
    cases o with
    | returnValue v =>
      simp only [resClean1] at h
      exact optClean_ofOpt h
    | _ => exact h
  | _ => exact h

theorem resClean_error (m : String) : resClean (.ok (newError m)) = true := by
  simp [resClean, newError, objClean]

theorem bindingsGet_clean :
    ∀ {bs : List (String × Option Obj)} {name : String} {v : Option Obj},
      bindingsClean bs = true → bindingsGet bs name = some v → optClean v = true := by
  intro bs
  induction bs with
  | nil => intro name v _ hg; exact absurd hg (by simp [bindingsGet])
  | cons b rest ih =>
    intro name v hok hg
    obtain ⟨n, w⟩ := b
    simp only [bindingsClean, Bool.and_eq_true] at hok
    simp only [bindingsGet] at hg
    by_cases hn : n = name
    · rw [if_pos hn] at hg
      cases hg
      exact hok.1
    · rw [if_neg hn] at hg
      exact ih hok.2 hg

theorem stateClean_get :
    ∀ {st : State} {ref : Nat} {ed : EnvData},
      stateClean st = true → st.get? ref = some ed → bindingsClean ed.bindings = true := by
  intro st
  induction st with
  | nil => intro ref ed _ hg; exact absurd hg (by simp)
  | cons e rest ih =>
    intro ref ed hok hg
    simp only [stateClean, Bool.and_eq_true] at hok
    cases ref with
    | zero => cases hg; exact hok.1
    | succ r => exact ih hok.2 hg

theorem envGetAux_clean :
    ∀ (fuel : Nat) {st : State} {ref : Nat} {name : String} {v : Option Obj},
      stateClean st = true → envGetAux fuel st ref name = some v → optClean v = true := by
  intro fuel
  induction fuel with
  | zero => intro st ref name v _ hg; exact absurd hg (by simp [envGetAux])
  | succ f ih =>
    intro st ref name v hok hg
    simp only [envGetAux] at hg
    cases hget : st.get? ref with
    | none => rw [hget] at hg; exact absurd hg (by simp)
    | some ed =>
      rw [hget] at hg
      simp only at hg
      cases hb : bindingsGet ed.bindings name with
      | some w =>
        rw [hb] at hg
        cases hg
        exact bindingsGet_clean (stateClean_get hok hget) hb
      | none =>
        rw [hb] at hg
        cases hp : ed.parent with
        | none => rw [hp] at hg; exact absurd hg (by simp)
        | some p => rw [hp] at hg; exact ih hok hg

theorem evalIdentifier_clean {name : String} {env : Nat} {st : State}
    (hok : stateClean st = true) : resClean (evalIdentifier name env st) = true := by
  unfold evalIdentifier envGet
  cases hg : envGetAux (st.length + 1) st env name with
  | some v =>
    simp only [hg]
    exact optClean_ofOpt (envGetAux_clean _ hok hg)
  | none =>
    simp only [hg]
    split
    · simp [resClean, objClean]
    · exact resClean_error _

theorem evalPrefixExpression_clean (operator : String) (right : Option Obj) :
    resClean (evalPrefixExpression operator right) = true := by
  unfold evalPrefixExpression evalBangOperatorExpression evalMinusOperatorExpression
  split
  · split <;> simp [resClean, objClean, nativeBoolToBooleanObject]
  · split
    · cases right with
      | none => rfl
      | some o => cases o <;> simp [resClean, objClean, newError, wrap64]
    · cases right with
      | none => rfl
      | some o => exact resClean_error _

theorem evalIntegerInfixOperator_clean (l : Int) (operator : String) (r : Int) :
    resClean (evalIntegerInfixOperator l operator r) = true := by
  unfold evalIntegerInfixOperator
  split
  · simp [resClean, objClean]
  · split
    · simp [resClean, objClean]
    · split
      · simp [resClean, objClean]
      · split
        · split
          · rfl
          · simp [resClean, objClean]
        · split
          · simp [resClean, objClean, nativeBoolToBooleanObject]
          · split
            · simp [resClean, objClean, nativeBoolToBooleanObject]
            · split
              · simp [resClean, objClean, nativeBoolToBooleanObject]
              · split
                · simp [resClean, objClean, nativeBoolToBooleanObject]
                · exact resClean_error _

theorem evalInfixTail_clean (l : Option Obj) (operator : String) (r : Option Obj) :
    resClean (evalInfixTail l operator r) = true := by
  unfold evalInfixTail
  split
  · simp [resClean, objClean, nativeBoolToBooleanObject]
  · split
    · simp [resClean, objClean, nativeBoolToBooleanObject]
    · cases l with
      | none => cases r <;> rfl
      | some l' =>
        cases r with
        | none => rfl
        | some r' =>
          split
          · rfl
          · rfl
          · split
            · exact resClean_error _
            · exact resClean_error _

theorem evalInfixExpression_clean (l : Option Obj) (operator : String) (r : Option Obj) :
    resClean (evalInfixExpression l operator r) = true := by
  unfold evalInfixExpression
  match r with
  | none => rfl
  | some r' =>
    simp only
    split
    · match l with
      | none => rfl
      | some l' =>
        simp only
        split
        · exact evalIntegerInfixOperator_clean _ _ _
        · exact evalInfixTail_clean _ _ _
    · split
      · match l with
        | none => rfl
        | some l' =>
          simp only
          split
          · split
            · simp [resClean, objClean]
            · exact resClean_error _
          · exact evalInfixTail_clean _ _ _
      · exact evalInfixTail_clean _ _ _

theorem optListClean_append {l₁ l₂ : List (Option Obj)} (h₁ : optListClean l₁ = true)
    (h₂ : optListClean l₂ = true) : optListClean (l₁ ++ l₂) = true := by
  induction l₁ with
  | nil => exact h₂
  | cons v rest ih =>
    simp only [optListClean, Bool.and_eq_true] at h₁ ⊢
    exact ⟨h₁.1, ih h₁.2⟩

theorem optListClean_getD :
    ∀ {l : List (Option Obj)} (n : Nat), optListClean l = true →
      optClean (l.getD n none) = true := by
  intro l
  induction l with
  | nil => intro n _; cases n <;> rfl
  | cons v rest ih =>
    intro n h
    simp only [optListClean, Bool.and_eq_true] at h
    cases n with
    | zero => simpa [List.getD] using h.1
    | succ m => simpa [List.getD] using ih m h.2

theorem optListClean_headD {l : List (Option Obj)} (h : optListClean l = true) :
    optClean (l.headD none) = true := by
  cases l with
  | nil => rfl
  | cons v rest => simp only [optListClean, Bool.and_eq_true] at h; exact h.1

theorem optListClean_tail {l : List (Option Obj)} (h : optListClean l = true) :
    optListClean l.tail = true := by
  cases l with
  | nil => exact h
  | cons v rest => simp only [optListClean, Bool.and_eq_true] at h; exact h.2

theorem applyBuiltin_clean (name : String) {args : List (Option Obj)}
    (hargs : optListClean args = true) : resClean (applyBuiltin name args) = true := by
  unfold applyBuiltin
  split
  · unfold builtinPush
    split
    · exact resClean_error _
    · split
      · rename_i elements a1 rest
        simp only [optListClean, optClean, objClean, Bool.and_eq_true] at hargs
        simp only [resClean, objClean]
        exact optListClean_append hargs.1 (by simp [optListClean, hargs.2.1])
      · rfl
      · exact resClean_error _
      · rfl
  · split
    · unfold builtinLen
      split
      · exact resClean_error _
      · split
        · simp [resClean, objClean]
        · simp [resClean, objClean]
        · rfl
        · exact resClean_error _
        · rfl
    · split
      · unfold builtinFirst
        split
        · exact resClean_error _
        · split
          · rename_i elements
            simp only [optListClean, optClean, objClean, Bool.and_eq_true] at hargs
            split
            · simp [resClean, objClean]
            · exact optClean_ofOpt (optListClean_getD 0 hargs.1)
          · rfl
          · exact resClean_error _
          · rfl
      · split
        · unfold builtinLast
          split
          · exact resClean_error _
          · split
            · rename_i elements
              simp only [optListClean, optClean, objClean, Bool.and_eq_true] at hargs
              split
              · simp [resClean, objClean]
              · exact optClean_ofOpt (optListClean_getD _ hargs.1)
            · rfl
            · exact resClean_error _
            · rfl
        · split
          · unfold builtinRest
            split
            · exact resClean_error _
            · split
              · rename_i elements
                simp only [optListClean, optClean, objClean, Bool.and_eq_true] at hargs
                split
                · simp [resClean, objClean]
                · simp only [resClean, objClean]
                  exact optListClean_tail hargs.1
              · rfl
              · exact resClean_error _
              · rfl
          · rfl

theorem bindingsSet_clean {bs : List (String × Option Obj)} {v : Option Obj}
    (hbs : bindingsClean bs = true) (hv : optClean v = true) (name : String) :
    bindingsClean (bindingsSet bs name v) = true := by
  induction bs with
  | nil => simp [bindingsSet, bindingsClean, hv]
  | cons b rest ih =>
    obtain ⟨n, w⟩ := b
    simp only [bindingsClean, Bool.and_eq_true] at hbs
    simp only [bindingsSet]
    split
    · simp [bindingsClean, hv, hbs.2]
    · simp [bindingsClean, hbs.1, ih hbs.2]

theorem stateClean_set :
    ∀ {st : State} {ref : Nat} {bs : List (String × Option Obj)} {par : Option Nat},
      stateClean st = true → bindingsClean bs = true →
      stateClean (st.set ref ⟨bs, par⟩) = true := by
  intro st
  induction st with
  | nil => intro ref bs par h _; exact h
  | cons ed rest ih =>
    intro ref bs par h hbs
    simp only [stateClean, Bool.and_eq_true] at h
    cases ref with
    | zero => simp [List.set, stateClean, hbs, h.2]
    | succ r => simp [List.set, stateClean, h.1, ih h.2 hbs]

theorem envSet_clean {st : State} {ref : Nat} {v : Option Obj} (hok : stateClean st = true)
    (hv : optClean v = true) (name : String) :
    stateClean (envSet st ref name v) = true := by
  unfold envSet
  cases hget : st.get? ref with
  | none => exact hok
  | some ed =>
    exact stateClean_set hok (bindingsSet_clean (stateClean_get hok hget) hv name)

theorem stateClean_append_empty {st : State} (hok : stateClean st = true)
    (par : Option Nat) : stateClean (st ++ [⟨[], par⟩]) = true := by
  induction st with
  | nil => rfl
  | cons ed rest ih =>
    simp only [stateClean, Bool.and_eq_true] at hok
    simp only [List.cons_append, stateClean, Bool.and_eq_true]
    exact ⟨hok.1, ih hok.2⟩

theorem bindParameters_clean :
    ∀ (parameters : List String) {args : List (Option Obj)} {ref : Nat} {st st' : State},
      stateClean st = true → optListClean args = true →
      bindParameters parameters args ref st = some st' → stateClean st' = true := by
  intro parameters
  induction parameters with
  | nil =>
    intro args ref st st' hok _ h
    cases args <;> (simp only [bindParameters] at h; cases h; exact hok)
  | cons p ps ih =>
    intro args ref st st' hok hargs h
    cases args with
    | nil => exact absurd h (by simp [bindParameters])
    | cons a as' =>
      simp only [optListClean, Bool.and_eq_true] at hargs
      simp only [bindParameters] at h
      exact ih (envSet_clean hok hargs.1 p) hargs.2 h

theorem extendFunctionEnv_clean {parameters : List String} {args : List (Option Obj)}
    {fnEnv ref : Nat} {st st' : State} (hok : stateClean st = true)
    (hargs : optListClean args = true)
    (h : extendFunctionEnv parameters args fnEnv st = some (ref, st')) :
    stateClean st' = true := by
  unfold extendFunctionEnv newEnclosedEnvironment at h
  simp only at h
  cases hb : bindParameters parameters args st.length (st ++ [⟨[], some fnEnv⟩]) with
  | none => rw [hb] at h; exact Option.noConfusion h
  | some st'' =>
    rw [hb] at h
    have : st'' = st' := congrArg Prod.snd (Option.some.inj h)
    subst this
    exact bindParameters_clean parameters (stateClean_append_empty hok _) hargs hb

theorem hashInsert_clean :
    ∀ {pairs : List (HashKey × Obj × Option Obj)} {hk : HashKey} {ko : Obj} {v : Option Obj},
      hashPairsClean pairs = true → objClean ko = true → optClean v = true →
      hashPairsClean (hashInsert pairs hk ko v) = true := by
  intro pairs
  induction pairs with
  | nil => intro hk ko v _ hko hv; simp [hashInsert, hashPairsClean, hko, hv]
  | cons pr rest ih =>
    intro hk ko v hps hko hv
    obtain ⟨k', ko', v'⟩ := pr
    simp only [hashPairsClean, Bool.and_eq_true] at hps
    simp only [hashInsert]
    split
    · simp [hashPairsClean, hko, hv, hps.2]
    · simp [hashPairsClean, hps.1.1, hps.1.2, ih hps.2 hko hv]

theorem hashLookup_clean :
    ∀ {pairs : List (HashKey × Obj × Option Obj)} {k : HashKey} {ko : Obj} {v : Option Obj},
      hashPairsClean pairs = true → hashLookup pairs k = some (ko, v) →
      optClean v = true := by
  intro pairs
  induction pairs with
  | nil => intro k ko v _ h; exact absurd h (by simp [hashLookup])
  | cons pr rest ih =>
    intro k ko v hps h
    obtain ⟨k', ko', v'⟩ := pr
    simp only [hashPairsClean, Bool.and_eq_true] at hps
    simp only [hashLookup] at h
    split at h
    · cases h; exact hps.1.2
    · exact ih hps.2 h

theorem resClean_atom_integer (v : Int) : resClean (.ok (.integer v)) = true := by
  simp [resClean, objClean]

theorem resClean_atom_boolean (v : Bool) :
    resClean (.ok (nativeBoolToBooleanObject v)) = true := by
  cases v <;> simp [nativeBoolToBooleanObject, resClean, objClean]

theorem resClean_atom_str (v : String) : resClean (.ok (.str v)) = true := by
  simp [resClean, objClean]

theorem resClean_atom_null : resClean (.ok .null) = true := by
  simp [resClean, objClean]

theorem resClean1_atom_null : resClean1 (.ok .null) = true := by
  simp [resClean1, objClean]

theorem seqRes_clean {x : Res × State} {k : Res → State → Res × State}
    (hx1 : resClean x.1 = true) (hx2 : stateClean x.2 = true)
    (hk : ∀ r st, resClean r = true → stateClean st = true →
      resClean (k r st).1 = true ∧ stateClean (k r st).2 = true) :
    resClean (seqRes x k).1 = true ∧ stateClean (seqRes x k).2 = true := by
  obtain ⟨r, st⟩ := x
  cases r with
  | hostAbort => exact ⟨rfl, hx2⟩
  | outOfFuel => exact ⟨rfl, hx2⟩
  | ok o => exact hk _ _ hx1 hx2
  | goNil => exact hk _ _ hx1 hx2

theorem seqRes_clean1 {x : Res × State} {k : Res → State → Res × State}
    (hx1 : resClean1 x.1 = true) (hx2 : stateClean x.2 = true)
    (hk : ∀ r st, resClean1 r = true → stateClean st = true →
      resClean1 (k r st).1 = true ∧ stateClean (k r st).2 = true) :
    resClean1 (seqRes x k).1 = true ∧ stateClean (seqRes x k).2 = true := by
  obtain ⟨r, st⟩ := x
  cases r with
  | hostAbort => exact ⟨rfl, hx2⟩
  | outOfFuel => exact ⟨rfl, hx2⟩
  | ok o => exact hk _ _ hx1 hx2
  | goNil => exact hk _ _ hx1 hx2

theorem seqRes_clean_to1 {x : Res × State} {k : Res → State → Res × State}
    (hx1 : resClean x.1 = true) (hx2 : stateClean x.2 = true)
    (hk : ∀ r st, resClean r = true → stateClean st = true →
      resClean1 (k r st).1 = true ∧ stateClean (k r st).2 = true) :
    resClean1 (seqRes x k).1 = true ∧ stateClean (seqRes x k).2 = true := by
  obtain ⟨r, st⟩ := x
  cases r with
  | hostAbort => exact ⟨rfl, hx2⟩
  | outOfFuel => exact ⟨rfl, hx2⟩
  | ok o => exact hk _ _ hx1 hx2
  | goNil => exact hk _ _ hx1 hx2

theorem seqRes_clean_from1 {x : Res × State} {k : Res → State → Res × State}
    (hx1 : resClean1 x.1 = true) (hx2 : stateClean x.2 = true)
    (hk : ∀ r st, resClean1 r = true → stateClean st = true →
      resClean (k r st).1 = true ∧ stateClean (k r st).2 = true) :
    resClean (seqRes x k).1 = true ∧ stateClean (seqRes x k).2 = true := by
  obtain ⟨r, st⟩ := x
  cases r with
  | hostAbort => exact ⟨rfl, hx2⟩
  | outOfFuel => exact ⟨rfl, hx2⟩
  | ok o => exact hk _ _ hx1 hx2
  | goNil => exact hk _ _ hx1 hx2

/-- Return-safety of an optional else-block, statement position. -/
def optBlockNR : Option (List Stmt) → Bool
  | none => true
  | some b => blockNR b

/-- Return-safety of an optional else-block, value position. -/
def optBodyNR1 : Option (List Stmt) → Bool
  | none => true
  | some b => bodyNR1 b

/-- Clean preservation through one evaluation step, restricted by the
syntactic return-safety predicates: under `exprNR` the result carries no
ReturnValue anywhere; under the weaker `exprNR1`/`stmtNR1`/`bodyNR1` at
most one top-level ReturnValue wrapper around a clean value.  Either way
the environment store stays clean.  One field per function of the
evaluator's mutual block, with the statement-position predicates split
out. -/
structure CleanAt (fuel : Nat) : Prop where
  expr : ∀ e env st, exprNR e = true → stateClean st = true →
    resClean (evalExpr fuel e env st).1 = true ∧
    stateClean (evalExpr fuel e env st).2 = true
  expr1 : ∀ e env st, exprNR1 e = true → stateClean st = true →
    resClean1 (evalExpr fuel e env st).1 = true ∧
    stateClean (evalExpr fuel e env st).2 = true
  stmt : ∀ s env st, stmtNR s = true → stateClean st = true →
    resClean (evalStmt fuel s env st).1 = true ∧
    stateClean (evalStmt fuel s env st).2 = true
  stmt1 : ∀ s env st, stmtNR1 s = true → stateClean st = true →
    resClean1 (evalStmt fuel s env st).1 = true ∧
    stateClean (evalStmt fuel s env st).2 = true
  letc : ∀ name value env st, exprNR value = true → stateClean st = true →
    resClean (evalLetStatement fuel name value env st).1 = true ∧
    stateClean (evalLetStatement fuel name value env st).2 = true
  retc : ∀ value env st, exprNR value = true → stateClean st = true →
    resClean1 (evalReturnStatement fuel value env st).1 = true ∧
    stateClean (evalReturnStatement fuel value env st).2 = true
  ifc : ∀ c cons alt env st, exprNR c = true → blockNR cons = true →
    optBlockNR alt = true →
    stateClean st = true →
    resClean (evalIfExpression fuel c cons alt env st).1 = true ∧
    stateClean (evalIfExpression fuel c cons alt env st).2 = true
  if1 : ∀ c cons alt env st, exprNR c = true → bodyNR1 cons = true →
    optBodyNR1 alt = true →
    stateClean st = true →
    resClean1 (evalIfExpression fuel c cons alt env st).1 = true ∧
    stateClean (evalIfExpression fuel c cons alt env st).2 = true
  blockc : ∀ stmts env st acc, blockNR stmts = true → stateClean st = true →
    resClean acc = true →
    resClean (evalBlockStatement fuel stmts env st acc).1 = true ∧
    stateClean (evalBlockStatement fuel stmts env st acc).2 = true
  block1 : ∀ stmts env st acc, bodyNR1 stmts = true → stateClean st = true →
    resClean1 acc = true →
    resClean1 (evalBlockStatement fuel stmts env st acc).1 = true ∧
    stateClean (evalBlockStatement fuel stmts env st acc).2 = true
  exprsC : ∀ exps env st results, exprListNR exps = true → stateClean st = true →
    optListClean results = true →
    listResClean (evalExpressions fuel exps env st results).1 = true ∧
    stateClean (evalExpressions fuel exps env st results).2 = true
  hashC : ∀ pairs env st acc, pairListNR pairs = true → stateClean st = true →
    hashPairsClean acc = true →
    resClean (evalHashPairs fuel pairs env st acc).1 = true ∧
    stateClean (evalHashPairs fuel pairs env st acc).2 = true
  applyC : ∀ fn args st, optClean fn = true → optListClean args = true →
    stateClean st = true →
    resClean (applyFunction fuel fn args st).1 = true ∧
    stateClean (applyFunction fuel fn args st).2 = true

theorem clean_let_step {fuel : Nat} (ih : CleanAt fuel) :
    ∀ name value env st, exprNR value = true → stateClean st = true →
      resClean (evalLetStatement (fuel + 1) name value env st).1 = true ∧
      stateClean (evalLetStatement (fuel + 1) name value env st).2 = true := by
  intro name value env st hnr hst
  simp only [evalLetStatement]
  apply seqRes_clean (ih.expr value env st hnr hst).1 (ih.expr value env st hnr hst).2
  intro r st1 hr hst1
  split
  · exact ⟨hr, hst1⟩
  · exact ⟨hr, envSet_clean hst1 (resClean_toOpt hr) name⟩

theorem clean_return_step {fuel : Nat} (ih : CleanAt fuel) :
    ∀ value env st, exprNR value = true → stateClean st = true →
      resClean1 (evalReturnStatement (fuel + 1) value env st).1 = true ∧
      stateClean (evalReturnStatement (fuel + 1) value env st).2 = true := by
  intro value env st hnr hst
  simp only [evalReturnStatement]
  apply seqRes_clean_to1 (ih.expr value env st hnr hst).1 (ih.expr value env st hnr hst).2
  intro r st1 hr hst1
  split
  · exact ⟨resClean_is_resClean1 hr, hst1⟩
  · refine ⟨?_, hst1⟩
    show resClean1 (.ok (.returnValue r.toOpt)) = true
    simp only [resClean1]
    exact resClean_toOpt hr

theorem clean_if_step {fuel : Nat} (ih : CleanAt fuel) :
    ∀ c cons alt env st, exprNR c = true → blockNR cons = true →
      optBlockNR alt = true →
      stateClean st = true →
      resClean (evalIfExpression (fuel + 1) c cons alt env st).1 = true ∧
      stateClean (evalIfExpression (fuel + 1) c cons alt env st).2 = true := by
  intro c cons alt env st hc hcons halt hst
  simp only [evalIfExpression]
  apply seqRes_clean (ih.expr c env st hc hst).1 (ih.expr c env st hc hst).2
  intro r st1 hr hst1
  split
  · exact ⟨hr, hst1⟩
  · split
    · exact ih.blockc cons env st1 .goNil hcons hst1 rfl
    · cases alt with
      | some b =>
        simp only [optBlockNR] at halt
        exact ih.blockc b env st1 .goNil halt hst1 rfl
      | none => exact ⟨resClean_atom_null, hst1⟩

theorem clean_if1_step {fuel : Nat} (ih : CleanAt fuel) :
    ∀ c cons alt env st, exprNR c = true → bodyNR1 cons = true →
      optBodyNR1 alt = true →
      stateClean st = true →
      resClean1 (evalIfExpression (fuel + 1) c cons alt env st).1 = true ∧
      stateClean (evalIfExpression (fuel + 1) c cons alt env st).2 = true := by
  intro c cons alt env st hc hcons halt hst
  simp only [evalIfExpression]
  apply seqRes_clean_to1 (ih.expr c env st hc hst).1 (ih.expr c env st hc hst).2
  intro r st1 hr hst1
  split
  · exact ⟨resClean_is_resClean1 hr, hst1⟩
  · split
    · exact ih.block1 cons env st1 .goNil hcons hst1 rfl
    · cases alt with
      | some b =>
        simp only [optBodyNR1] at halt
        exact ih.block1 b env st1 .goNil halt hst1 rfl
      | none => exact ⟨resClean1_atom_null, hst1⟩

theorem clean_block_step {fuel : Nat} (ih : CleanAt fuel) :
    ∀ stmts env st acc, blockNR stmts = true → stateClean st = true →
      resClean acc = true →
      resClean (evalBlockStatement (fuel + 1) stmts env st acc).1 = true ∧
      stateClean (evalBlockStatement (fuel + 1) stmts env st acc).2 = true := by
  intro stmts env st acc hnr hst hacc
  cases stmts with
  | nil => exact ⟨hacc, hst⟩
  | cons s rest =>
    simp only [blockNR, Bool.and_eq_true] at hnr
    simp only [evalBlockStatement]
    apply seqRes_clean (ih.stmt s env st hnr.1 hst).1 (ih.stmt s env st hnr.1 hst).2
    intro r st1 hr hst1
    cases r with
    | ok o =>
      show resClean (if objType o = "RETURN_VALUE" ∨ objType o = "ERROR"
          then ((Res.ok o : Res), st1)
          else evalBlockStatement fuel rest env st1 (Res.ok o)).1 = true ∧
        stateClean (if objType o = "RETURN_VALUE" ∨ objType o = "ERROR"
          then ((Res.ok o : Res), st1)
          else evalBlockStatement fuel rest env st1 (Res.ok o)).2 = true
      by_cases hsig : objType o = "RETURN_VALUE" ∨ objType o = "ERROR"
      · rw [if_pos hsig]
        exact ⟨hr, hst1⟩
      · rw [if_neg hsig]
        exact ih.blockc rest env st1 (.ok o) hnr.2 hst1 hr
    | goNil => exact ih.blockc rest env st1 .goNil hnr.2 hst1 rfl
    | hostAbort => exact ih.blockc rest env st1 .hostAbort hnr.2 hst1 rfl
    | outOfFuel => exact ih.blockc rest env st1 .outOfFuel hnr.2 hst1 rfl

theorem clean_block1_step {fuel : Nat} (ih : CleanAt fuel) :
    ∀ stmts env st acc, bodyNR1 stmts = true → stateClean st = true →
      resClean1 acc = true →
      resClean1 (evalBlockStatement (fuel + 1) stmts env st acc).1 = true ∧
      stateClean (evalBlockStatement (fuel + 1) stmts env st acc).2 = true := by
  intro stmts env st acc hnr hst hacc
  cases stmts with
  | nil => exact ⟨hacc, hst⟩
  | cons s rest =>
    simp only [bodyNR1, Bool.and_eq_true] at hnr
    simp only [evalBlockStatement]
    apply seqRes_clean1 (ih.stmt1 s env st hnr.1 hst).1 (ih.stmt1 s env st hnr.1 hst).2
    intro r st1 hr hst1
    cases r with
    | ok o =>
      show resClean1 (if objType o = "RETURN_VALUE" ∨ objType o = "ERROR"
          then ((Res.ok o : Res), st1)
          else evalBlockStatement fuel rest env st1 (Res.ok o)).1 = true ∧
        stateClean (if objType o = "RETURN_VALUE" ∨ objType o = "ERROR"
          then ((Res.ok o : Res), st1)
          else evalBlockStatement fuel rest env st1 (Res.ok o)).2 = true
      by_cases hsig : objType o = "RETURN_VALUE" ∨ objType o = "ERROR"
      · rw [if_pos hsig]
        exact ⟨hr, hst1⟩
      · rw [if_neg hsig]
        exact ih.block1 rest env st1 (.ok o) hnr.2 hst1 hr
    | goNil => exact ih.block1 rest env st1 .goNil hnr.2 hst1 rfl
    | hostAbort => exact ih.block1 rest env st1 .hostAbort hnr.2 hst1 rfl
    | outOfFuel => exact ih.block1 rest env st1 .outOfFuel hnr.2 hst1 rfl

theorem clean_stmt_step {fuel : Nat} (ih : CleanAt fuel) :
    ∀ s env st, stmtNR s = true → stateClean st = true →
      resClean (evalStmt (fuel + 1) s env st).1 = true ∧
      stateClean (evalStmt (fuel + 1) s env st).2 = true := by
  intro s env st hnr hst
  cases s with
  | letS name value =>
    simp only [stmtNR] at hnr
    exact ih.letc name value env st hnr hst
  | returnS value => exact absurd hnr (by simp [stmtNR])
  | exprS e =>
    simp only [stmtNR] at hnr
    exact ih.expr e env st hnr hst

theorem clean_stmt1_step {fuel : Nat} (ih : CleanAt fuel) :
    ∀ s env st, stmtNR1 s = true → stateClean st = true →
      resClean1 (evalStmt (fuel + 1) s env st).1 = true ∧
      stateClean (evalStmt (fuel + 1) s env st).2 = true := by
  intro s env st hnr hst
  cases s with
  | letS name value =>
    simp only [stmtNR1] at hnr
    have h := ih.letc name value env st hnr hst
    exact ⟨resClean_is_resClean1 h.1, h.2⟩
  | returnS value =>
    simp only [stmtNR1] at hnr
    exact ih.retc value env st hnr hst
  | exprS e =>
    simp only [stmtNR1] at hnr
    exact ih.expr1 e env st hnr hst

theorem clean_expressions_step {fuel : Nat} (ih : CleanAt fuel) :
    ∀ exps env st results, exprListNR exps = true → stateClean st = true →
      optListClean results = true →
      listResClean (evalExpressions (fuel + 1) exps env st results).1 = true ∧
      stateClean (evalExpressions (fuel + 1) exps env st results).2 = true := by
  intro exps env st results hnr hst hres
  cases exps with
  | nil => exact ⟨hres, hst⟩
  | cons e rest =>
    simp only [exprListNR, Bool.and_eq_true] at hnr
    simp only [evalExpressions]
    have he := ih.expr e env st hnr.1 hst
    cases hE : evalExpr fuel e env st with
    | mk r st1 =>
      rw [hE] at he
      simp only at he
      cases r with
      | hostAbort => exact ⟨rfl, he.2⟩
      | outOfFuel => exact ⟨rfl, he.2⟩
      | ok o =>
        simp only
        split
        · refine ⟨?_, he.2⟩
          simp only [listResClean, optListClean, Bool.and_eq_true]
          simp [resClean_toOpt he.1]
        · exact ih.exprsC rest env st1 _ hnr.2 he.2
            (optListClean_append hres (by simp [optListClean, resClean_toOpt he.1]))
      | goNil =>
        simp only
        split
        · refine ⟨?_, he.2⟩
          simp [listResClean, optListClean, Res.toOpt, optClean]
        · exact ih.exprsC rest env st1 _ hnr.2 he.2
            (optListClean_append hres (by simp [optListClean, Res.toOpt, optClean]))

theorem clean_hash_step {fuel : Nat} (ih : CleanAt fuel) :
    ∀ pairs env st acc, pairListNR pairs = true → stateClean st = true →
      hashPairsClean acc = true →
      resClean (evalHashPairs (fuel + 1) pairs env st acc).1 = true ∧
      stateClean (evalHashPairs (fuel + 1) pairs env st acc).2 = true := by
  intro pairs env st acc hnr hst hacc
  cases pairs with
  | nil =>
    refine ⟨?_, hst⟩
    simpa [resClean, objClean] using hacc
  | cons kv rest =>
    obtain ⟨k, v⟩ := kv
    simp only [pairListNR, Bool.and_eq_true] at hnr
    simp only [evalHashPairs]
    apply seqRes_clean (ih.expr v env st hnr.1.2 hst).1 (ih.expr v env st hnr.1.2 hst).2
    intro value st1 hv hst1
    apply seqRes_clean (ih.expr k env st1 hnr.1.1 hst1).1 (ih.expr k env st1 hnr.1.1 hst1).2
    intro keyObj st2 hk hst2
    cases hko : keyObj.toOpt with
    | none => exact ⟨rfl, hst2⟩
    | some ko =>
      simp only
      cases hhk : hashKeyOf ko with
      | none => exact ⟨resClean_error _, hst2⟩
      | some hk' =>
        have hkoC : objClean ko = true := by
          have := resClean_toOpt hk
          rw [hko] at this
          simpa [optClean] using this
        exact ih.hashC rest env st2 _ hnr.2 hst2
          (hashInsert_clean hacc hkoC (resClean_toOpt hv))

theorem clean_apply_step {fuel : Nat} (ih : CleanAt fuel) :
    ∀ fn args st, optClean fn = true → optListClean args = true →
      stateClean st = true →
      resClean (applyFunction (fuel + 1) fn args st).1 = true ∧
      stateClean (applyFunction (fuel + 1) fn args st).2 = true := by
  intro fn args st hfn hargs hst
  simp only [applyFunction]
  match fn with
  | some (.function parameters body fnEnv) =>
    simp only
    have hbody : bodyNR1 body = true := by
      simpa [optClean, objClean] using hfn
    cases hext : extendFunctionEnv parameters args fnEnv st with
    | none => exact ⟨rfl, hst⟩
    | some cs =>
      obtain ⟨closure, st1⟩ := cs
      have hst1 : stateClean st1 = true := extendFunctionEnv_clean hst hargs hext
      have hb := ih.block1 body closure st1 .goNil hbody hst1 rfl
      exact ⟨unwrapReturnValue_clean hb.1, hb.2⟩
  | some (.builtin name) => exact ⟨applyBuiltin_clean name hargs, hst⟩
  | none => exact ⟨resClean_error _, hst⟩
  | some (.integer x) => exact ⟨resClean_error _, hst⟩
  | some (.boolean x) => exact ⟨resClean_error _, hst⟩
  | some .null => exact ⟨resClean_error _, hst⟩
  | some (.str x) => exact ⟨resClean_error _, hst⟩
  | some (.array x) => exact ⟨resClean_error _, hst⟩
  | some (.hash x) => exact ⟨resClean_error _, hst⟩
  | some (.returnValue x) => exact ⟨resClean_error _, hst⟩
  | some (.error x) => exact ⟨resClean_error _, hst⟩

theorem exprNR_if_parts {c : Expr} {cons : List Stmt} {alt : Option (List Stmt)}
    (h : exprNR (.ifE c cons alt) = true) :
    exprNR c = true ∧ blockNR cons = true ∧ optBlockNR alt = true := by
  cases alt with
  | none =>
    simp only [exprNR, Bool.and_eq_true, Bool.and_true] at h
    exact ⟨h.1, h.2, rfl⟩
  | some b =>
    simp only [exprNR, Bool.and_eq_true] at h
    exact ⟨h.1.1, h.1.2, h.2⟩

theorem exprNR1_if_parts {c : Expr} {cons : List Stmt} {alt : Option (List Stmt)}
    (h : exprNR1 (.ifE c cons alt) = true) :
    exprNR c = true ∧ bodyNR1 cons = true ∧ optBodyNR1 alt = true := by
  cases alt with
  | none =>
    simp only [exprNR1, Bool.and_eq_true, Bool.and_true] at h
    exact ⟨h.1, h.2, rfl⟩
  | some b =>
    simp only [exprNR1, Bool.and_eq_true] at h
    exact ⟨h.1.1, h.1.2, h.2⟩

theorem clean_expr_step {fuel : Nat} (ih : CleanAt fuel) :
    ∀ e env st, exprNR e = true → stateClean st = true →
      resClean (evalExpr (fuel + 1) e env st).1 = true ∧
      stateClean (evalExpr (fuel + 1) e env st).2 = true := by
  intro e env st hnr hst
  cases e with
  | nilE => exact ⟨rfl, hst⟩
  | ident name => exact ⟨evalIdentifier_clean hst, hst⟩
  | intLit lit value => exact ⟨resClean_atom_integer value, hst⟩
  | boolLit lit value => exact ⟨resClean_atom_boolean value, hst⟩
  | strLit value => exact ⟨resClean_atom_str value, hst⟩
  | prefixE operator right =>
    simp only [exprNR] at hnr
    show resClean (seqRes (evalExpr fuel right env st) _).1 = true ∧
      stateClean (seqRes (evalExpr fuel right env st) _).2 = true
    apply seqRes_clean (ih.expr right env st hnr hst).1 (ih.expr right env st hnr hst).2
    intro r st1 hr hst1
    split
    · exact ⟨hr, hst1⟩
    · exact ⟨evalPrefixExpression_clean operator r.toOpt, hst1⟩
  | infixE left operator right =>
    simp only [exprNR, Bool.and_eq_true] at hnr
    show resClean (seqRes (evalExpr fuel right env st) _).1 = true ∧
      stateClean (seqRes (evalExpr fuel right env st) _).2 = true
    apply seqRes_clean (ih.expr right env st hnr.2 hst).1 (ih.expr right env st hnr.2 hst).2
    intro r st1 hr hst1
    split
    · exact ⟨hr, hst1⟩
    · apply seqRes_clean (ih.expr left env st1 hnr.1 hst1).1 (ih.expr left env st1 hnr.1 hst1).2
      intro l st2 hl hst2
      split
      · exact ⟨hl, hst2⟩
      · exact ⟨evalInfixExpression_clean l.toOpt operator r.toOpt, hst2⟩
  | ifE c cons alt =>
    obtain ⟨h1, h2, h3⟩ := exprNR_if_parts hnr
    exact ih.ifc c cons alt env st h1 h2 h3 hst
  | fnE parameters body =>
    refine ⟨?_, hst⟩
    show objClean (.function parameters body env) = true
    simp only [exprNR] at hnr
    simpa [objClean] using hnr
  | callE function parameters =>
    simp only [exprNR, Bool.and_eq_true] at hnr
    show resClean (seqRes (evalExpr fuel function env st) _).1 = true ∧
      stateClean (seqRes (evalExpr fuel function env st) _).2 = true
    apply seqRes_clean (ih.expr function env st hnr.1 hst).1
      (ih.expr function env st hnr.1 hst).2
    intro f st1 hf hst1
    split
    · exact ⟨hf, hst1⟩
    · have hexps := ih.exprsC parameters env st1 [] hnr.2 hst1 rfl
      cases hE : evalExpressions fuel parameters env st1 [] with
      | mk res st2 =>
        rw [hE] at hexps
        simp only at hexps
        cases res with
        | error r => exact ⟨hexps.1, hexps.2⟩
        | ok args =>
          simp only
          split
          · exact ⟨optClean_ofOpt (optListClean_headD hexps.1), hexps.2⟩
          · exact ih.applyC f.toOpt args st2 (resClean_toOpt hf) hexps.1 hexps.2
  | arrayE elements =>
    simp only [exprNR] at hnr
    have hexps := ih.exprsC elements env st [] hnr hst rfl
    cases hE : evalExpressions fuel elements env st [] with
    | mk res st1 =>
      show resClean (match evalExpressions fuel elements env st [] with
          | (.error r, st1) => (r, st1)
          | (.ok els, st1) =>
            if els.length == 1 && isErrorO (els.headD none) then
              (Res.ofOpt (els.headD none), st1)
            else ((.ok (.array els) : Res), st1)).1 = true ∧
        stateClean (match evalExpressions fuel elements env st [] with
          | (.error r, st1) => (r, st1)
          | (.ok els, st1) =>
            if els.length == 1 && isErrorO (els.headD none) then
              (Res.ofOpt (els.headD none), st1)
            else ((.ok (.array els) : Res), st1)).2 = true
      rw [hE] at hexps ⊢
      simp only at hexps
      cases res with
      | error r => exact ⟨hexps.1, hexps.2⟩
      | ok els =>
        simp only
        split
        · exact ⟨optClean_ofOpt (optListClean_headD hexps.1), hexps.2⟩
        · refine ⟨?_, hexps.2⟩
          simp only [resClean, objClean]
          exact hexps.1
  | hashE pairs =>
    simp only [exprNR] at hnr
    exact ih.hashC pairs env st [] hnr hst rfl
  | indexE target index =>
    simp only [exprNR, Bool.and_eq_true] at hnr
    show resClean (seqRes (evalExpr fuel target env st) _).1 = true ∧
      stateClean (seqRes (evalExpr fuel target env st) _).2 = true
    apply seqRes_clean (ih.expr target env st hnr.1 hst).1 (ih.expr target env st hnr.1 hst).2
    intro t st1 ht hst1
    cases t with
    | goNil => exact ⟨rfl, hst1⟩
    | hostAbort => exact ⟨rfl, hst1⟩
    | outOfFuel => exact ⟨rfl, hst1⟩
    | ok o =>
      cases o with
      | array elements =>
        have helems : optListClean elements = true := by
          simpa [resClean, objClean] using ht
        show resClean (seqRes (evalExpr fuel index env st1) _).1 = true ∧
          stateClean (seqRes (evalExpr fuel index env st1) _).2 = true
        apply seqRes_clean (ih.expr index env st1 hnr.2 hst1).1
          (ih.expr index env st1 hnr.2 hst1).2
        intro i st2 hi hst2
        cases hio : i.toOpt with
        | none => exact ⟨rfl, hst2⟩
        | some io =>
          simp only
          cases io with
          | integer iv =>
            simp only
            split
            · exact ⟨resClean_error _, hst2⟩
            · split
              · exact ⟨resClean_error _, hst2⟩
              · exact ⟨optClean_ofOpt (optListClean_getD _ helems), hst2⟩
          | boolean v => exact ⟨resClean_error _, hst2⟩
          | null => exact ⟨resClean_error _, hst2⟩
          | str v => exact ⟨resClean_error _, hst2⟩
          | array v => exact ⟨resClean_error _, hst2⟩
          | hash v => exact ⟨resClean_error _, hst2⟩
          | function a b c => exact ⟨resClean_error _, hst2⟩
          | builtin v => exact ⟨resClean_error _, hst2⟩
          | returnValue v => exact ⟨resClean_error _, hst2⟩
          | error m => exact ⟨resClean_error _, hst2⟩
      | hash ps =>
        have hps : hashPairsClean ps = true := by
          simpa [resClean, objClean] using ht
        show resClean (seqRes (evalExpr fuel index env st1) _).1 = true ∧
          stateClean (seqRes (evalExpr fuel index env st1) _).2 = true
        apply seqRes_clean (ih.expr index env st1 hnr.2 hst1).1
          (ih.expr index env st1 hnr.2 hst1).2
        intro i st2 hi hst2
        cases hio : i.toOpt with
        | none => exact ⟨rfl, hst2⟩
        | some io =>
          simp only
          cases hhk : hashKeyOf io with
          | none => exact ⟨resClean_error _, hst2⟩
          | some k =>
            simp only
            cases hlook : hashLookup ps k with
            | none => exact ⟨rfl, hst2⟩
            | some kv =>
              obtain ⟨ko, v⟩ := kv
              exact ⟨optClean_ofOpt (hashLookup_clean hps hlook), hst2⟩
      | integer v => exact ⟨resClean_error _, hst1⟩
      | boolean v => exact ⟨resClean_error _, hst1⟩
      | null => exact ⟨resClean_error _, hst1⟩
      | str v => exact ⟨resClean_error _, hst1⟩
      | function a b c => exact ⟨resClean_error _, hst1⟩
      | builtin v => exact ⟨resClean_error _, hst1⟩
      | returnValue v => exact ⟨resClean_error _, hst1⟩
      | error m => exact ⟨resClean_error _, hst1⟩

theorem clean_expr1_step {fuel : Nat} (ih : CleanAt fuel)
    (hx : ∀ e env st, exprNR e = true → stateClean st = true →
      resClean (evalExpr (fuel + 1) e env st).1 = true ∧
      stateClean (evalExpr (fuel + 1) e env st).2 = true) :
    ∀ e env st, exprNR1 e = true → stateClean st = true →
      resClean1 (evalExpr (fuel + 1) e env st).1 = true ∧
      stateClean (evalExpr (fuel + 1) e env st).2 = true := by
  intro e env st hnr hst
  cases e with
  | ifE c cons alt =>
    obtain ⟨h1, h2, h3⟩ := exprNR1_if_parts hnr
    exact ih.if1 c cons alt env st h1 h2 h3 hst
  | nilE =>
    simp only [exprNR1] at hnr
    have h := hx _ env st hnr hst
    exact ⟨resClean_is_resClean1 h.1, h.2⟩
  | ident name =>
    simp only [exprNR1] at hnr
    have h := hx _ env st hnr hst
    exact ⟨resClean_is_resClean1 h.1, h.2⟩
  | intLit lit value =>
    simp only [exprNR1] at hnr
    have h := hx _ env st hnr hst
    exact ⟨resClean_is_resClean1 h.1, h.2⟩
  | boolLit lit value =>
    simp only [exprNR1] at hnr
    have h := hx _ env st hnr hst
    exact ⟨resClean_is_resClean1 h.1, h.2⟩
  | strLit value =>
    simp only [exprNR1] at hnr
    have h := hx _ env st hnr hst
    exact ⟨resClean_is_resClean1 h.1, h.2⟩
  | prefixE operator right =>
    simp only [exprNR1] at hnr
    have h := hx _ env st hnr hst
    exact ⟨resClean_is_resClean1 h.1, h.2⟩
  | infixE left operator right =>
    simp only [exprNR1] at hnr
    have h := hx _ env st hnr hst
    exact ⟨resClean_is_resClean1 h.1, h.2⟩
  | fnE parameters body =>
    simp only [exprNR1] at hnr
    have h := hx _ env st hnr hst
    exact ⟨resClean_is_resClean1 h.1, h.2⟩
  | callE function parameters =>
    simp only [exprNR1] at hnr
    have h := hx _ env st hnr hst
    exact ⟨resClean_is_resClean1 h.1, h.2⟩
  | arrayE elements =>
    simp only [exprNR1] at hnr
    have h := hx _ env st hnr hst
    exact ⟨resClean_is_resClean1 h.1, h.2⟩
  | hashE pairs =>
    simp only [exprNR1] at hnr
    have h := hx _ env st hnr hst
    exact ⟨resClean_is_resClean1 h.1, h.2⟩
  | indexE target index =>
    simp only [exprNR1] at hnr
    have h := hx _ env st hnr hst
    exact ⟨resClean_is_resClean1 h.1, h.2⟩

theorem cleanAt_zero : CleanAt 0 :=
  ⟨fun e env st _ h => ⟨rfl, h⟩,
   fun e env st _ h => ⟨rfl, h⟩,
   fun s env st _ h => ⟨rfl, h⟩,
   fun s env st _ h => ⟨rfl, h⟩,
   fun name value env st _ h => ⟨rfl, h⟩,
   fun value env st _ h => ⟨rfl, h⟩,
   fun c cons alt env st _ _ _ h => ⟨rfl, h⟩,
   fun c cons alt env st _ _ _ h => ⟨rfl, h⟩,
   fun stmts env st acc _ h _ => ⟨rfl, h⟩,
   fun stmts env st acc _ h _ => ⟨rfl, h⟩,
   fun exps env st results _ h _ => ⟨rfl, h⟩,
   fun pairs env st acc _ h _ => ⟨rfl, h⟩,
   fun fn args st _ _ h => ⟨rfl, h⟩⟩

theorem cleanAt_succ {fuel : Nat} (ih : CleanAt fuel) : CleanAt (fuel + 1) :=
  ⟨clean_expr_step ih, clean_expr1_step ih (clean_expr_step ih), clean_stmt_step ih,
   clean_stmt1_step ih, clean_let_step ih, clean_return_step ih, clean_if_step ih,
   clean_if1_step ih, clean_block_step ih, clean_block1_step ih,
   clean_expressions_step ih, clean_hash_step ih, clean_apply_step ih⟩

theorem clean_master : ∀ fuel, CleanAt fuel := by
  intro fuel
  induction fuel with
  | zero => exact cleanAt_zero
  | succ fuel ih => exact cleanAt_succ ih

theorem clean_program :
    ∀ fuel stmts env st acc, bodyNR1 stmts = true → stateClean st = true →
      resClean acc = true →
      resClean (evalProgram fuel stmts env st acc).1 = true ∧
      stateClean (evalProgram fuel stmts env st acc).2 = true := by
  intro fuel
  induction fuel with
  | zero => intro stmts env st acc _ h _; exact ⟨rfl, h⟩
  | succ fuel ihp =>
    intro stmts env st acc hnr hst hacc
    cases stmts with
    | nil => exact ⟨hacc, hst⟩
    | cons s rest =>
      simp only [bodyNR1, Bool.and_eq_true] at hnr
      have hs := (clean_master fuel).stmt1 s env st hnr.1 hst
      show resClean (seqRes (evalStmt fuel s env st) _).1 = true ∧
        stateClean (seqRes (evalStmt fuel s env st) _).2 = true
      apply seqRes_clean_from1 hs.1 hs.2
      intro r st1 hr hst1
      cases r with
      | goNil => exact ihp rest env st1 .goNil hnr.2 hst1 rfl
      | hostAbort => exact ihp rest env st1 .hostAbort hnr.2 hst1 rfl
      | outOfFuel => exact ihp rest env st1 .outOfFuel hnr.2 hst1 rfl
      | ok o =>
        cases o with
        | returnValue v =>
          refine ⟨?_, hst1⟩
          exact optClean_ofOpt hr
        | error m => exact ⟨resClean_error m, hst1⟩
        | integer v => exact ihp rest env st1 _ hnr.2 hst1 hr
        | boolean v => exact ihp rest env st1 _ hnr.2 hst1 hr
        | null => exact ihp rest env st1 _ hnr.2 hst1 hr
        | str v => exact ihp rest env st1 _ hnr.2 hst1 hr
        | array v => exact ihp rest env st1 _ hnr.2 hst1 hr
        | hash v => exact ihp rest env st1 _ hnr.2 hst1 hr
        | function a b c => exact ihp rest env st1 _ hnr.2 hst1 hr
        | builtin v => exact ihp rest env st1 _ hnr.2 hst1 hr

/-- Program `let x = if (true) ... return 5 ...;` — a let statement whose
value expression is an if-expression whose consequence block is a bare
return statement. -/
def c7letProgram : List Stmt :=
  [.letS "x" (.ifE (.boolLit "true" true) [.returnS (iL 5)] none)]

/-- Program `[ if (true) ... return 10 ... ]` — an array literal whose
single element expression is such an if-expression. -/
def c7arrayProgram : List Stmt :=
  [.exprS (.arrayE [.ifE (.boolLit "true" true) [.returnS (iL 10)] none])]

/-- Program `let f = fn() ... return 1 ...; f()` — return statements only
in statement position of a function body, so return-safe. -/
def c7safeProgram : List Stmt :=
  [.letS "f" (.fnE [] [.returnS (iL 1)]), .exprS (.callE (.ident "f") [])]

/-- Counterexample for claim C7: a return statement inside an
if-expression in value position makes the if-expression itself evaluate
to a ReturnValue object, and neither evalLetStatement nor
evalExpressions unwraps or rejects it.  The binding created by
`let x = if (true) ... return 5 ...;` holds a ReturnValue in the final
environment store, and the array literal holding such an if-expression
evaluates to an Array whose element is a ReturnValue. -/
theorem claim_C7_counterexample :
    (runProgram 50 c7letProgram).2 =
      [⟨[("x", some (.returnValue (some (.integer 5))))], none⟩]
    ∧ (runProgram 50 c7arrayProgram).1 =
      .ok (.array [some (.returnValue (some (.integer 10)))])
    ∧ stateClean (runProgram 50 c7letProgram).2 = false
    ∧ resClean (runProgram 50 c7arrayProgram).1 = false := by
  refine ⟨rfl, rfl, ?_, ?_⟩
  · rw [show (runProgram 50 c7letProgram).2 =
      [⟨[("x", some (.returnValue (some (.integer 5))))], none⟩] from rfl]
    simp [stateClean, bindingsClean, optClean, objClean]
  · rw [show (runProgram 50 c7arrayProgram).1 =
      .ok (.array [some (.returnValue (some (.integer 10)))]) from rfl]
    simp [resClean, objClean, optListClean, optClean]

/-- C7 as amended: the no-ReturnValue-leak invariant holds for the
return-safe fragment.  For a program whose statements satisfy the
syntactic predicate `bodyNR1` (return statements occur only in statement
position of the top level or of a function body, never inside an
if-expression that sits in value position), evaluation from a clean
state yields a clean result and a clean final store: no environment
binding and no Array or Hash element is ever a ReturnValue, and every
stored function body is itself return-safe.  Stated for evalProgram from
any clean state and accumulator, for evalExpr on `exprNR` expressions,
and for runProgram from the fresh REPL state. -/
theorem claim_C7_no_returnvalue_leaks :
    (∀ fuel stmts env st acc, bodyNR1 stmts = true → stateClean st = true →
      resClean acc = true →
      resClean (evalProgram fuel stmts env st acc).1 = true ∧
      stateClean (evalProgram fuel stmts env st acc).2 = true)
    ∧ (∀ fuel e env st, exprNR e = true → stateClean st = true →
      resClean (evalExpr fuel e env st).1 = true ∧
      stateClean (evalExpr fuel e env st).2 = true)
    ∧ (∀ fuel stmts, bodyNR1 stmts = true →
      resClean (runProgram fuel stmts).1 = true ∧
      stateClean (runProgram fuel stmts).2 = true) := by
  refine ⟨clean_program, fun fuel => (clean_master fuel).expr, ?_⟩
  intro fuel stmts hnr
  exact clean_program fuel stmts 0 [⟨[], none⟩] .goNil hnr rfl rfl

/-- Witness for claim C7: the amended invariant applied to the concrete
return-safe program `let f = fn() ... return 1 ...; f()`. -/
theorem claim_C7_no_returnvalue_leaks_witness :
    bodyNR1 c7safeProgram = true ∧
    (resClean (runProgram 50 c7safeProgram).1 = true ∧
     stateClean (runProgram 50 c7safeProgram).2 = true) := by
  have hnr : bodyNR1 c7safeProgram = true := by
    simp [c7safeProgram, bodyNR1, stmtNR1, exprNR1, exprNR, exprListNR, iL]
  exact ⟨hnr, claim_C7_no_returnvalue_leaks.2.2 50 c7safeProgram hnr⟩

end Monkey

